import Mathlib

/-!
# Pong on a page-organised monochrome display: rasteriser, compositor, physics

A shallow embedding of `data.h`, `functions.c` and `pong.c`.

Conventions of the embedding

* `float` values are rationals (`ℚ`); C's float-to-int conversion is
  truncation toward zero (`to_int`). The float constants of `data.h` are the
  binary32 values of their literals. The additions that move an object
  (`walk`, `move_paddle_step`) and the page computation of `draw_object` round
  their result to binary32 with `fl` (round to nearest, ties to even, with
  subnormals); `fl` has no upper exponent bound, so results beyond the largest
  binary32 value stay finite. The other float operations (the products and
  sums of `integrate`, `bounce_mod` and `bounce_velocity`, and the sums inside
  the comparisons of `in_object`) are exact. The termination lemmas of the two
  correction loops are proved for every object at loop entry, whatever
  arithmetic produced it.
* `int` values are unbounded integers (`Int`); the scores of a session stay
  below `SCORE_WIN`, far from the machine range.
* A `uint8_t [512]` buffer is a map from index to byte value. A store outside
  `0 .. 511`, and a shift by a count outside `0 .. 30`, is undefined behaviour
  in C; the embedding reports it as `none`.
* The global variables live in one `state` record; a pointer to one of the
  three global objects is an `obj_id`.
* `while` loops whose trip count is not bounded by the code take a fuel
  argument and return `none` when the fuel runs out.
* The high-score table `h_scrs` is a map from index to entry; the loops of
  `sort_high_score` keep every index below `NUM_HIGH_SCRS`.
* The timer interrupt (which grows `t_mod`) does not fire inside a call.
-/

namespace Pong

/-! ## data.h -/

def PADDLE_HEIGHT : Int := 8
def PADDLE_WIDTH : Int := 2
/-- The literal `0.15f`: the binary32 value `10066330 * 2 ^ (-26)`. -/
def PADDLE_SPEED : ℚ := 5033165 / 33554432

def BALL_STARTX : Int := 63
def BALL_STARTY : Int := 15
def BALL_SIZE : Int := 2
/-- The literal `0.25f`, a binary32 value. -/
def BALL_SPEED : ℚ := 25 / 100

/-- The literal `0.004f`: the binary32 value `8589935 * 2 ^ (-31)`. -/
def BASE_MODIFIER : ℚ := 8589935 / 2147483648

def SCORE_WIN : Int := 8

/-- The literal `0.085f`: the binary32 value `11408507 * 2 ^ (-27)`. -/
def EASY_SPEED : ℚ := 11408507 / 134217728

/-- The literal `0.12f`: the binary32 value `16106127 * 2 ^ (-27)`. -/
def HARD_SPEED : ℚ := 16106127 / 134217728

def NUM_HIGH_SCRS : Nat := 50

/-- The display has 32 pixel rows (four pages of eight rows). -/
def field_height : Int := 32

/-- The display has 128 pixel columns. -/
def field_width : Int := 128

/-- A game object: `struct object` of `data.h`. -/
structure object where
  data : Nat → Nat
  x : ℚ
  y : ℚ
  v_x : ℚ
  v_y : ℚ
  width : Int
  height : Int
  score : Int

/-- An entry of the high-score table: `struct high_score` of `data.h`. -/
structure high_score where
  initials : Fin 3 → Char
  score : Int

/-- Names of the three global objects `p1`, `p2`, `b`. -/
inductive obj_id where
  | P1 : obj_id
  | P2 : obj_id
  | B : obj_id
  deriving DecidableEq

/-- The global variables the game functions read and write. -/
structure state where
  p1 : object
  p2 : object
  b : object
  screen : Nat → Nat
  score : Nat → Nat
  start_dir : Int
  t_mod : ℚ

/-- Dereference an object pointer. -/
def state.get (s : state) : obj_id → object
  | obj_id.P1 => s.p1
  | obj_id.P2 => s.p2
  | obj_id.B => s.b

/-- Store through an object pointer. -/
def state.set (s : state) : obj_id → object → state
  | obj_id.P1, o => { s with p1 := o }
  | obj_id.P2, o => { s with p2 := o }
  | obj_id.B, o => { s with b := o }

/-- C conversion of a `float` to `int`: truncation toward zero. -/
def to_int (q : ℚ) : Int := if 0 ≤ q then ⌊q⌋ else ⌈q⌉

/-! ## Binary32 rounding -/

/-- Rounding of a rational to the nearest integer, ties to the even one. -/
def round_even (q : ℚ) : Int :=
  if q - (⌊q⌋ : ℚ) < 1 / 2 then ⌊q⌋
  else if 1 / 2 < q - (⌊q⌋ : ℚ) then ⌊q⌋ + 1
  else if ⌊q⌋ % 2 = 0 then ⌊q⌋ else ⌊q⌋ + 1

/-- The exponent `e` for which the binary32 values around `a >= 0` are the
multiples of `2 ^ e`: 23 below the binary exponent of `a` (24-bit significand),
and -149 in the subnormal range. -/
def ulp_exp (a : ℚ) : Int := max (Int.log 2 a - 23) (-149)

/-- Rounding of `a >= 0` to binary32. -/
def flp (a : ℚ) : ℚ := (round_even (a / 2 ^ ulp_exp a) : ℚ) * 2 ^ ulp_exp a

/-- Rounding to binary32: round to nearest, ties to even. -/
def fl (x : ℚ) : ℚ := if 0 ≤ x then flp x else -flp (-x)

/-- Float addition `a + b`. -/
def fadd (a b : ℚ) : ℚ := fl (a + b)

/-- Float division `a / b`. -/
def fdiv (a b : ℚ) : ℚ := fl (a / b)

/-! ## Draw functions -/

/-- The loop `for (i = 0; i < n; i++) screen[i] = p1.data[i] & p2.data[i] & b.data[i] & score[i];` -/
def draw_screen_loop (s : state) : Nat → (Nat → Nat) → (Nat → Nat)
  | 0, scr => scr
  | n + 1, scr =>
    Function.update (draw_screen_loop s n scr) n
      (s.p1.data n &&& s.p2.data n &&& s.b.data n &&& s.score n)

/-- Function `draw_screen` of `functions.c`. -/
def draw_screen (s : state) : state :=
  { s with screen := draw_screen_loop s 512 s.screen }

/-- The loop `for (i = 0; i < n; i++) obj[i] = 255;` -/
def clear_loop : Nat → (Nat → Nat) → (Nat → Nat)
  | 0, obj => obj
  | n + 1, obj => Function.update (clear_loop n obj) n 255

/-- The body of the inner loop of `draw_object`, for column `j` and row `i`:
`page_off = (o->y + i) / 8;`
`obj[page_off * 128 + (int) o->x + j] -= 1 << ((int) o->y + i - page_off * 8);`
The sum `o->y + i` and the quotient are float operations; the index and the
shift count are integer expressions. -/
def draw_pixel (o : object) (obj : Nat → Nat) (j i : Int) : Option (Nat → Nat) :=
  let page_off : Int := to_int (fdiv (fadd o.y (i : ℚ)) 8)
  let idx : Int := page_off * 128 + to_int o.x + j
  let sh : Int := to_int o.y + i - page_off * 8
  if 0 ≤ idx ∧ idx < 512 ∧ 0 ≤ sh ∧ sh < 31 then
    some (Function.update obj idx.toNat
      ((((obj idx.toNat : Nat) : Int) - 2 ^ sh.toNat) % 256).toNat)
  else none

/-- The inner loop of `draw_object`: rows `0 .. n-1` of column `j`. -/
def draw_rows (o : object) (j : Int) : Nat → (Nat → Nat) → Option (Nat → Nat)
  | 0, obj => some obj
  | n + 1, obj => (draw_rows o j n obj).bind (fun obj1 => draw_pixel o obj1 j (n : Int))

/-- The outer loop of `draw_object`: columns `0 .. n-1`. -/
def draw_cols (o : object) : Nat → (Nat → Nat) → Option (Nat → Nat)
  | 0, obj => some obj
  | n + 1, obj =>
    (draw_cols o n obj).bind (fun obj1 => draw_rows o (n : Int) o.height.toNat obj1)

/-- The part of `draw_object` that writes the object's own buffer. -/
def rasterize (o : object) : Option object :=
  (draw_cols o o.width.toNat (clear_loop 512 o.data)).map (fun d => { o with data := d })

/-- Function `draw_object` of `functions.c`: rasterise, then `draw_screen ()`. -/
def draw_object (s : state) (id : obj_id) : Option state :=
  (rasterize (s.get id)).map (fun o => draw_screen (s.set id o))

/-! ## Game functions -/

/-- The `if` statement of `move_paddle`: the position update. -/
def move_paddle_step (p : object) : object :=
  if (p.y > 0 ∧ p.v_y < 0) ∨ (p.y < ((31 - p.height : Int) : ℚ) ∧ p.v_y > 0) then
    { p with y := fadd p.y p.v_y }
  else p

/-- Function `move_paddle` of `functions.c`. -/
def move_paddle (s : state) (id : obj_id) : Option state :=
  draw_object (s.set id (move_paddle_step (s.get id))) id

/-- The condition of the `if` in `in_object`, for column `i` and row `j` of object 1. -/
def in_cell (o1 o2 : object) (i j : Int) : Prop :=
  o1.x + (i : ℚ) ≥ o2.x ∧ o1.x + (i : ℚ) ≤ o2.x + (o2.width : ℚ) ∧
    o1.y + (j : ℚ) ≤ o2.y + (o2.height : ℚ) ∧ o1.y + (j : ℚ) ≥ o2.y

instance in_cell_decidable (o1 o2 : object) (i j : Int) : Decidable (in_cell o1 o2 i j) := by
  unfold in_cell
  infer_instance

/-- The inner loop of `in_object`, from row `j` with `rem` rows left: the value
of `col` when the loop is left (by `break` or by running out). -/
def in_object_rows (o1 o2 : object) (i : Int) : Nat → Int → Int
  | 0, _ => 0
  | rem + 1, j => if in_cell o1 o2 i j then 1 else in_object_rows o1 o2 i rem (j + 1)

/-- The outer loop of `in_object`, from column `i` with `rem` columns left. -/
def in_object_cols (o1 o2 : object) : Nat → Int → Int
  | 0, _ => 0
  | rem + 1, i =>
    if in_object_rows o1 o2 i o1.height.toNat 0 ≠ 0 then in_object_rows o1 o2 i o1.height.toNat 0
    else in_object_cols o1 o2 rem (i + 1)

/-- Function `in_object` of `functions.c`. -/
def in_object (o1 o2 : object) : Int :=
  in_object_cols o1 o2 o1.width.toNat 0

/-- The first two statements of `move_ball`: `b->x += b->v_x * t_mod; b->y += b->v_y * t_mod;` -/
def integrate (s : state) : state :=
  { s with b := { s.b with x := s.b.x + s.b.v_x * s.t_mod, y := s.b.y + s.b.v_y * s.t_mod } }

/-- The test `b->y <= 0 || b->y >= 31 - b->height`. -/
def wall_hit (b : object) : Prop :=
  b.y ≤ 0 ∨ b.y ≥ ((31 - b.height : Int) : ℚ)

instance wall_hit_decidable (b : object) : Decidable (wall_hit b) := by
  unfold wall_hit
  infer_instance

/-- One step of a correction loop: `b->x += b->v_x; b->y += b->v_y;` -/
def walk (b : object) : object :=
  { b with x := fadd b.x b.v_x, y := fadd b.y b.v_y }

/-- The velocity swap of the vertical-collision branch of `move_ball`. -/
def wall_reflect (b : object) : object :=
  if (b.v_x > 0 ∧ b.v_y > 0) ∨ (b.v_x < 0 ∧ b.v_y < 0) then
    { b with v_y := b.v_x * -1, v_x := b.v_y }
  else
    { b with v_y := b.v_x, v_x := b.v_y * -1 }

/-- The loop `while (b->y <= 0 || b->y >= 31 - b->height)` of `move_ball`. -/
def wall_walk : Nat → object → Option object
  | 0, b => if wall_hit b then none else some b
  | fuel + 1, b => if wall_hit b then wall_walk fuel (walk b) else some b

/-- The body of the vertical-collision `if` of `move_ball`. -/
def wall_branch (fuel : Nat) (b : object) : Option object :=
  wall_walk fuel (wall_reflect b)

/-- The vertical-collision step of `move_ball`. -/
def vertical_collision (fuel : Nat) (b : object) : Option object :=
  if wall_hit b then wall_branch fuel b else some b

/-- The test `b->x <= 0 || b->x >= 127 - b->width`. -/
def edge_out (b : object) : Prop :=
  b.x ≤ 0 ∨ b.x ≥ ((127 - b.width : Int) : ℚ)

instance edge_out_decidable (b : object) : Decidable (edge_out b) := by
  unfold edge_out
  infer_instance

/-- The statement `(b->x >= 0) ? (p1->score++) : (p2->score++);` -/
def give_score (s : state) : state :=
  if s.b.x ≥ 0 then { s with p1 := { s.p1 with score := s.p1.score + 1 } }
  else { s with p2 := { s.p2 with score := s.p2.score + 1 } }

/-- The reset of the horizontal-collision branch of `move_ball`, after the score is given. -/
def reset_ball (s : state) : state :=
  { s with
    b := { s.b with
      x := (BALL_STARTX : ℚ)
      y := (BALL_STARTY : ℚ)
      v_x := ((s.start_dir * -1 : Int) : ℚ) * BALL_SPEED / 2
      v_y := ((s.start_dir * -1 : Int) : ℚ) * BALL_SPEED / 2 }
    start_dir := s.start_dir * -1
    t_mod := 1 }

/-- The horizontal-collision step of `move_ball`. -/
def horizontal_collision (s : state) : state :=
  if edge_out s.b then reset_ball (give_score s) else s

/-- The value `mod` of `bounce_paddle`; `b->height / 2` is an integer division. -/
def bounce_mod (b p : object) : ℚ :=
  |(p.y + (p.height : ℚ)) / 2 - (b.y + ((Int.tdiv b.height 2 : Int) : ℚ))| * BASE_MODIFIER

/-- The velocity update of `bounce_paddle`: everything before its `while` loop.
`vx1`, `vx2` are the successive values of `b->v_x`, and `vy1`, `vy2` those of
`b->v_y`; position and size of the ball are not written. -/
def bounce_velocity (b p : object) : object :=
  let mid_ball : ℚ := b.y + ((Int.tdiv b.height 2 : Int) : ℚ)
  let mod : ℚ := bounce_mod b p
  let vx1 : ℚ := b.v_x * -1
  let vx2 : ℚ := if vx1 > 0 then vx1 - mod else vx1 + mod
  let vy1 : ℚ := if b.v_y < 0 then b.v_y - mod else b.v_y + mod
  let vy2 : ℚ :=
    if b.y + (b.height : ℚ) > p.y ∧ mid_ball < p.y + (p.height : ℚ) / 2 then
      let vy3 : ℚ :=
        if b.y + (b.height : ℚ) ≥ p.y ∧ b.y + (b.height : ℚ) < p.y + 2 / 10 then
          vy1 * (102 / 100)
        else vy1
      if vy3 > 0 then vy3 * -1 else vy3
    else if mid_ball > p.y + (p.height : ℚ) / 2 ∧ b.y < p.y + (p.height : ℚ) then
      let vy3 : ℚ :=
        if b.y ≤ p.y + (p.height : ℚ) ∧ b.y > p.y + (p.height : ℚ) - 2 / 10 then
          vy1 * (102 / 100)
        else vy1
      if vy3 < 0 then vy3 * -1 else vy3
    else
      vy1 * -1
  { b with v_x := vx2, v_y := vy2 }

/-- The loop `while (in_object (b, p))` of `bounce_paddle`. -/
def unstick (p : object) : Nat → object → Option object
  | 0, b => if in_object b p ≠ 0 then none else some b
  | fuel + 1, b => if in_object b p ≠ 0 then unstick p fuel (walk b) else some b

/-- Function `bounce_paddle` of `functions.c`. -/
def bounce_paddle (fuel : Nat) (b p : object) : Option object :=
  unstick p fuel (bounce_velocity b p)

/-- The paddle-collision step of `move_ball`. -/
def paddle_collision (fuel : Nat) (s : state) : Option state :=
  if in_object s.b s.p1 ≠ 0 then
    (bounce_paddle fuel s.b s.p1).map (fun b1 => { s with b := b1 })
  else if in_object s.b s.p2 ≠ 0 then
    (bounce_paddle fuel s.b s.p2).map (fun b1 => { s with b := b1 })
  else some s

/-- The state of `move_ball` at its horizontal-edge test: after the integration
and the vertical-collision step. -/
def move_ball_to_edge (fuel : Nat) (s : state) : Option state :=
  (vertical_collision fuel (integrate s).b).map (fun b1 => { integrate s with b := b1 })

/-- The state of `move_ball` at its paddle-collision test. -/
def move_ball_to_paddles (fuel : Nat) (s : state) : Option state :=
  (move_ball_to_edge fuel s).map horizontal_collision

/-- Everything `move_ball` does before it calls `draw_object (b)`. -/
def move_ball_physics (fuel : Nat) (s : state) : Option state :=
  (move_ball_to_paddles fuel s).bind (paddle_collision fuel)

/-- Function `move_ball` of `functions.c`. -/
def move_ball (fuel : Nat) (s : state) : Option state :=
  (move_ball_physics fuel s).bind (fun s1 => draw_object s1 obj_id.B)

/-! ## High-score functions -/

/-- The inner loop of `sort_high_score`, from index `j` with `rem` iterations
left: `if (h_scrs[j].score > h_scrs[max].score) max = j;`. The result is the
value of `max` after the loop. The table `h_scrs` is a map from index to entry;
the loop bounds keep every index below `NUM_HIGH_SCRS`. -/
def max_loop (h : Nat → high_score) : Nat → Nat → Nat → Nat
  | 0, _, max => max
  | rem + 1, j, max =>
    max_loop h rem (j + 1) (if (h j).score > (h max).score then j else max)

/-- One iteration of the outer loop of `sort_high_score`, for index `i`: find
`max` from `j = i`, then swap the entries at `i` and `max` when they differ. -/
def sort_step (h : Nat → high_score) (i : Nat) : Nat → high_score :=
  if max_loop h (NUM_HIGH_SCRS - i) i i ≠ i then
    Function.update (Function.update h i (h (max_loop h (NUM_HIGH_SCRS - i) i i)))
      (max_loop h (NUM_HIGH_SCRS - i) i i) (h i)
  else h

/-- The outer loop of `sort_high_score`, from index `i` with `rem` iterations left. -/
def sort_loop : Nat → Nat → (Nat → high_score) → (Nat → high_score)
  | 0, _, h => h
  | rem + 1, i, h => sort_loop rem (i + 1) (sort_step h i)

/-- Function `sort_high_score` of `functions.c`: `for (i = 0; i < 3; i++)`. -/
def sort_high_score (h : Nat → high_score) : Nat → high_score :=
  sort_loop 3 0 h

/-! ## Vocabulary of the statements -/

/-- Pixel `(px, py)` is on in a page-packed buffer: bit `py mod 8` of byte
`(py div 8) * 128 + px` is cleared. -/
def pixel_on (d : Nat → Nat) (px py : Nat) : Prop :=
  (d (py / 8 * 128 + px)).testBit (py % 8) = false

/-- Pixel `(px, py)` is off in a page-packed buffer: its bit is set. -/
def pixel_off (d : Nat → Nat) (px py : Nat) : Prop :=
  (d (py / 8 * 128 + px)).testBit (py % 8) = true

/-- Pixel `(px, py)` lies in the rectangle of `o`, whose corner is the
truncated position of `o`. -/
def in_rect (o : object) (px py : Nat) : Prop :=
  to_int o.x ≤ (px : Int) ∧ (px : Int) < to_int o.x + o.width ∧
    to_int o.y ≤ (py : Int) ∧ (py : Int) < to_int o.y + o.height

/-- Clearing the bit of pixel `(px, py)` by subtracting its mask. -/
def clr (obj : Nat → Nat) (px py : Nat) : Nat → Nat :=
  Function.update obj (py / 8 * 128 + px) (obj (py / 8 * 128 + px) - 2 ^ (py % 8))

/-- The pixels written once columns `0 .. J-1` are complete and rows `0 .. I-1`
of column `J` are done, for an object whose corner is `(FX, FY)`. -/
def drawn (FX FY H J I px py : Nat) : Prop :=
  (FX ≤ px ∧ px < FX + J ∧ FY ≤ py ∧ py < FY + H) ∨ (px = FX + J ∧ FY ≤ py ∧ py < FY + I)

/-- Loop invariant of the two nested loops of `draw_object`. -/
def raster_inv (obj : Nat → Nat) (FX FY H J I : Nat) : Prop :=
  (∀ k, k < 512 → obj k < 256) ∧
    ∀ px py, px < 128 → py < 32 → (pixel_on obj px py ↔ drawn FX FY H J I px py)

/-- The positions, sizes, velocities and scores that `game_init` sets, with
`start_dir` and `t_mod` as `start_init` sets them; the buffers hold placeholder
bytes. -/
def game_start : state :=
  { p1 := { data := fun _ => 0, x := 5, y := 15, v_x := 0, v_y := 0,
            width := 2, height := 8, score := 0 }
    p2 := { data := fun _ => 0, x := 122, y := 15, v_x := 0, v_y := 0,
            width := 2, height := 8, score := 0 }
    b := { data := fun _ => 0, x := 63, y := 15, v_x := 1 / 8, v_y := 1 / 8,
           width := 2, height := 2, score := 0 }
    screen := fun _ => 0
    score := fun _ => 255
    start_dir := 1
    t_mod := 1 }

/-- The paddle velocities the game loops assign (`multi_game`, `single_game`). -/
def paddle_velocity (v : ℚ) : Prop :=
  v = 0 ∨ v = PADDLE_SPEED ∨ v = -PADDLE_SPEED ∨ v = EASY_SPEED ∨ v = -EASY_SPEED ∨
    v = HARD_SPEED ∨ v = -HARD_SPEED

/-- A state whose paddle 1 is one eighth of a row below the top, moving up. -/
def paddle_near_top : state :=
  { game_start with p1 := { game_start.p1 with y := 1 / 8, v_y := -PADDLE_SPEED } }

/-- The spec's cell test: some cell `(i, j)` of object 1 lies within the inclusive
bounds of object 2. -/
def cell_inside (o1 o2 : object) : Prop :=
  ∃ i j : Int, 0 ≤ i ∧ i < o1.width ∧ 0 ≤ j ∧ j < o1.height ∧
    o2.x ≤ o1.x + (i : ℚ) ∧ o1.x + (i : ℚ) ≤ o2.x + (o2.width : ℚ) ∧
    o2.y ≤ o1.y + (j : ℚ) ∧ o1.y + (j : ℚ) ≤ o2.y + (o2.height : ℚ)

/-- A state whose ball is about to cross the top wall, moving up and left. -/
def ball_near_top : state :=
  { game_start with b := { game_start.b with y := 1 / 16, v_x := -1 / 8, v_y := -1 / 8 } }

/-- A state whose ball is one step to the right of the left edge, moving left
at the session-start speed with the speed modifier at its baseline. -/
def ball_near_left_edge : state :=
  { game_start with b := { game_start.b with x := 1 / 8, v_x := -1 / 8, v_y := 1 / 8 } }

/-- A state whose ball sits on the left edge, moving left. -/
def ball_on_left_edge : state :=
  { game_start with b := { game_start.b with x := 0, v_x := -1 / 8, v_y := 1 / 8 } }

/-- A ball touching the front of paddle 1 of `game_start`, its centre level
with the centre of the paddle. -/
def ball_at_paddle_centre : object :=
  { game_start.b with x := 7, y := 18, v_x := -1 / 8, v_y := 1 / 8 }

/-- An object lies inside the display: `0 <= x`, `x + width <= 128`, `0 <= y`,
`y + height <= 32`. -/
def in_field (o : object) : Prop :=
  0 ≤ o.x ∧ o.x + (o.width : ℚ) ≤ 128 ∧ 0 ≤ o.y ∧ o.y + (o.height : ℚ) ≤ 32

instance in_field_decidable (o : object) : Decidable (in_field o) := by
  unfold in_field
  infer_instance

instance in_rect_decidable (o : object) (px py : Nat) : Decidable (in_rect o px py) := by
  unfold in_rect
  infer_instance

/-- A state whose paddle 1 has its top `2 ^ (-24)` above row 1: `y` is the
binary32 value `0x1.fffffep-1`. -/
def paddle_below_row_one : state :=
  { game_start with p1 := { game_start.p1 with y := 16777215 / 16777216 } }

/-- A state whose ball, after one integration step, has its bottom edge an
eighth of a row below the top edge of paddle 1, within the columns of the
paddle. -/
def ball_grazing_paddle : state :=
  { game_start with b := { game_start.b with x := 49 / 8, y := 13, v_x := -1 / 8, v_y := 1 / 8 } }

/-- A state whose paddle 2 is at row 23 and whose ball, low in the field, runs
into the front of that paddle with a small horizontal speed. -/
def ball_into_low_paddle : state :=
  { game_start with
    p2 := { game_start.p2 with y := 23 }
    b := { game_start.b with x := 3871 / 32, y := 113 / 4, v_x := 1 / 32, v_y := 1 / 4 } }

/-- A state whose ball crosses the top wall with the horizontal speed `2 ^ (-30)`. -/
def ball_creeping_right : state :=
  { game_start with
    b := { game_start.b with y := 1 / 16, v_x := 1 / 1073741824, v_y := -1 / 8 } }

/-- A state whose ball crosses the top wall with the horizontal speed `-2 ^ (-40)`. -/
def ball_creeping_left : state :=
  { game_start with
    b := { game_start.b with y := 1 / 16, v_x := -1 / 1099511627776, v_y := -1 / 8 } }

/-- A paddle at the top of the field, at the columns of paddle 1. -/
def paddle_at_top : object :=
  { game_start.p1 with y := 0 }

/-- A ball on the front of `paddle_at_top`, level with its centre, that moves
right at `2 ^ (-23)` per step. -/
def ball_barely_moving : object :=
  { game_start.b with x := 7, y := 3, v_x := 1 / 8388608, v_y := 0 }

/-- The least magnitude of a walked velocity component for which the
termination theorems are stated: `2 ^ (-16)`. -/
def walk_step_min : ℚ := 1 / 65536

/-- An object is at most 128 units from the origin on both axes and at most
128 wide and high. -/
def near_display (o : object) : Prop :=
  -128 ≤ o.x ∧ o.x ≤ 128 ∧ -128 ≤ o.y ∧ o.y ≤ 128 ∧ o.width ≤ 128 ∧ o.height ≤ 128

instance near_display_decidable (o : object) : Decidable (near_display o) := by
  unfold near_display
  infer_instance

/-- A state whose ball is above the top wall and already moves down, toward
the field. -/
def ball_returning_from_top : state :=
  { game_start with b := { game_start.b with y := -1 / 8, v_x := 1 / 8, v_y := 1 / 8 } }

/-- A state whose ball crosses the top wall with a horizontal speed of more
than the height of the field. -/
def ball_too_fast : state :=
  { game_start with b := { game_start.b with y := 1 / 16, v_x := -30, v_y := -1 / 8 } }

instance pixel_on_decidable (d : Nat → Nat) (px py : Nat) : Decidable (pixel_on d px py) := by
  unfold pixel_on
  infer_instance

/-- A state in which pixel `(0, 0)` is on in the layer of paddle 1 and every
pixel is off in the other three layers. -/
def one_layer_lit : state :=
  { game_start with
    p1 := { game_start.p1 with data := fun k => if k = 0 then 254 else 255 }
    p2 := { game_start.p2 with data := fun _ => 255 }
    b := { game_start.b with data := fun _ => 255 }
    score := fun _ => 255 }

/-- A ball whose right edge touches the left edge of paddle 1 of `game_start`,
level with the top of the paddle. -/
def ball_left_of_paddle : object :=
  { game_start.b with x := 3, y := 15 }

/-- A ball whose left edge touches the right edge of paddle 1 of `game_start`
and whose lower half-row overlaps the top of the paddle. -/
def ball_beside_paddle_top : object :=
  { game_start.b with x := 7, y := 27 / 2 }

/-- A ball overlapping paddle 1 of `game_start` a tenth of a row above the
bottom edge of the paddle. -/
def ball_low_on_paddle : object :=
  { game_start.b with x := 7, y := 229 / 10, v_x := -1 / 8, v_y := 1 / 8 }

/-- The entry at index `a` has the greatest score among the entries from `a` on. -/
def leads (h : Nat → high_score) (a : Nat) : Prop :=
  ∀ k, a ≤ k → k < NUM_HIGH_SCRS → (h k).score ≤ (h a).score

/-! ## Theorems -/

/-! ### Binary32 rounding -/

theorem round_even_cases (q : ℚ) : round_even q = ⌊q⌋ ∨ round_even q = ⌊q⌋ + 1 := by
  unfold round_even
  split_ifs <;> simp

theorem round_even_lower (q : ℚ) : q - 1 / 2 ≤ (round_even q : ℚ) := by
  have h1 : ((⌊q⌋ : Int) : ℚ) ≤ q := Int.floor_le q
  have h2 : q < ((⌊q⌋ : Int) : ℚ) + 1 := Int.lt_floor_add_one q
  unfold round_even
  split_ifs <;> push_cast <;> linarith

theorem round_even_upper (q : ℚ) : (round_even q : ℚ) ≤ q + 1 / 2 := by
  have h1 : ((⌊q⌋ : Int) : ℚ) ≤ q := Int.floor_le q
  have h2 : q < ((⌊q⌋ : Int) : ℚ) + 1 := Int.lt_floor_add_one q
  unfold round_even
  split_ifs <;> push_cast <;> linarith

theorem round_even_int (n : Int) : round_even (n : ℚ) = n := by
  unfold round_even
  simp

theorem round_even_mono {p q : ℚ} (h : p ≤ q) : round_even p ≤ round_even q := by
  have hf : ⌊p⌋ ≤ ⌊q⌋ := Int.floor_le_floor h
  rcases lt_or_eq_of_le hf with hlt | heq
  · rcases round_even_cases p with h1 | h1 <;> rcases round_even_cases q with h2 | h2 <;> omega
  · unfold round_even
    rw [heq]
    split_ifs <;> first | omega | (exfalso; linarith)

theorem round_even_le_int {q : ℚ} {n : Int} (h : q ≤ (n : ℚ)) : round_even q ≤ n := by
  have := round_even_mono h
  rwa [round_even_int] at this

theorem int_le_round_even {q : ℚ} {n : Int} (h : (n : ℚ) ≤ q) : n ≤ round_even q := by
  have := round_even_mono h
  rwa [round_even_int] at this

theorem two_zpow_pos (e : Int) : (0 : ℚ) < 2 ^ e := zpow_pos (by norm_num) e

theorem flp_nonneg {a : ℚ} (ha : 0 ≤ a) : 0 ≤ flp a := by
  unfold flp
  have hu := two_zpow_pos (ulp_exp a)
  have h0 : (0 : Int) ≤ round_even (a / 2 ^ ulp_exp a) :=
    int_le_round_even (by simpa using div_nonneg ha (le_of_lt hu))
  have : (0 : ℚ) ≤ (round_even (a / 2 ^ ulp_exp a) : ℚ) := by exact_mod_cast h0
  positivity

theorem ulp_exp_mono {a b : ℚ} (ha : 0 < a) (h : a ≤ b) : ulp_exp a ≤ ulp_exp b := by
  unfold ulp_exp
  have := Int.log_mono_right (b := 2) ha h
  exact max_le_max (by omega) (le_refl _)

theorem flp_mono {a b : ℚ} (ha : 0 ≤ a) (h : a ≤ b) : flp a ≤ flp b := by
  rcases eq_or_lt_of_le ha with h0 | hpos
  · have : flp a = 0 := by
      rw [← h0]
      unfold flp
      simp [round_even_int 0, round_even]
    rw [this]
    exact flp_nonneg (le_trans ha h)
  · have hbpos : 0 < b := lt_of_lt_of_le hpos h
    have he := ulp_exp_mono hpos h
    rcases eq_or_lt_of_le he with heq | hlt
    · unfold flp
      rw [heq]
      have hu := two_zpow_pos (ulp_exp b)
      have : round_even (a / 2 ^ ulp_exp b) ≤ round_even (b / 2 ^ ulp_exp b) :=
        round_even_mono (div_le_div_of_nonneg_right h (le_of_lt hu))
      have hc : (round_even (a / 2 ^ ulp_exp b) : ℚ) ≤ (round_even (b / 2 ^ ulp_exp b) : ℚ) := by
        exact_mod_cast this
      exact mul_le_mul_of_nonneg_right hc (le_of_lt hu)
    · -- different binades: the top of the binade of `a` separates the two
      have hua := two_zpow_pos (ulp_exp a)
      have hub := two_zpow_pos (ulp_exp b)
      have h2 : (1 : ℚ) ≤ 2 := by norm_num
      have ha1 : a < (2 : ℚ) ^ (ulp_exp a + 24) := by
        have := Int.lt_zpow_succ_log_self (b := 2) (by norm_num) a
        have hle : Int.log 2 a + 1 ≤ ulp_exp a + 24 := by
          unfold ulp_exp
          have := le_max_left (Int.log 2 a - 23) (-149)
          omega
        calc a < ((2 : ℕ) : ℚ) ^ (Int.log 2 a + 1) := this
          _ = (2 : ℚ) ^ (Int.log 2 a + 1) := by norm_num
          _ ≤ (2 : ℚ) ^ (ulp_exp a + 24) := zpow_le_zpow_right₀ h2 hle
      have hA : flp a ≤ (2 : ℚ) ^ (ulp_exp a + 24) := by
        unfold flp
        have hq : a / 2 ^ ulp_exp a ≤ (((2 : Int) ^ 24 : Int) : ℚ) := by
          rw [div_le_iff₀ hua]
          have : (2 : ℚ) ^ (ulp_exp a + 24) = (((2 : Int) ^ 24 : Int) : ℚ) * 2 ^ ulp_exp a := by
            rw [zpow_add₀ (by norm_num : (2 : ℚ) ≠ 0)]
            norm_num
            ring
          linarith
        have hr := round_even_le_int hq
        have hrq : (round_even (a / 2 ^ ulp_exp a) : ℚ) ≤ (((2 : Int) ^ 24 : Int) : ℚ) := by
          exact_mod_cast hr
        have : (2 : ℚ) ^ (ulp_exp a + 24) = (((2 : Int) ^ 24 : Int) : ℚ) * 2 ^ ulp_exp a := by
          rw [zpow_add₀ (by norm_num : (2 : ℚ) ≠ 0)]
          norm_num
          ring
        rw [this]
        exact mul_le_mul_of_nonneg_right hrq (le_of_lt hua)
      have heb : ulp_exp b = Int.log 2 b - 23 := by
        unfold ulp_exp at hlt ⊢
        have h149 := le_max_right (Int.log 2 a - 23) (-149)
        rcases max_cases (Int.log 2 b - 23) (-149) with ⟨h1, _⟩ | ⟨h1, _⟩
        · exact h1
        · rw [h1] at hlt; omega
      have hb1 : (2 : ℚ) ^ (ulp_exp b + 23) ≤ b := by
        have := Int.zpow_log_le_self (b := 2) (by norm_num) hbpos
        have e : ulp_exp b + 23 = Int.log 2 b := by omega
        rw [e]
        calc (2 : ℚ) ^ Int.log 2 b = ((2 : ℕ) : ℚ) ^ Int.log 2 b := by norm_num
          _ ≤ b := this
      have hB : (2 : ℚ) ^ (ulp_exp b + 23) ≤ flp b := by
        unfold flp
        have e : (2 : ℚ) ^ (ulp_exp b + 23) = (((2 : Int) ^ 23 : Int) : ℚ) * 2 ^ ulp_exp b := by
          rw [zpow_add₀ (by norm_num : (2 : ℚ) ≠ 0)]
          norm_num
          ring
        have hq : (((2 : Int) ^ 23 : Int) : ℚ) ≤ b / 2 ^ ulp_exp b := by
          rw [le_div_iff₀ hub]
          linarith
        have hr := int_le_round_even hq
        have hrq : (((2 : Int) ^ 23 : Int) : ℚ) ≤ (round_even (b / 2 ^ ulp_exp b) : ℚ) := by
          exact_mod_cast hr
        rw [e]
        exact mul_le_mul_of_nonneg_right hrq (le_of_lt hub)
      have hmid : (2 : ℚ) ^ (ulp_exp a + 24) ≤ (2 : ℚ) ^ (ulp_exp b + 23) :=
        zpow_le_zpow_right₀ h2 (by omega)
      linarith

theorem fl_mono {x y : ℚ} (h : x ≤ y) : fl x ≤ fl y := by
  unfold fl
  by_cases hx : 0 ≤ x
  · rw [if_pos hx, if_pos (le_trans hx h)]
    exact flp_mono hx h
  · rw [if_neg hx]
    have hx' : 0 ≤ -x := by linarith
    by_cases hy : 0 ≤ y
    · rw [if_pos hy]
      have := flp_nonneg hx'
      have := flp_nonneg hy
      linarith
    · rw [if_neg hy]
      have hy' : 0 ≤ -y := by linarith
      have := flp_mono hy' (by linarith : -y ≤ -x)
      linarith

theorem flp_error {a : ℚ} (ha : 0 ≤ a) (hlt : a < 256) : |flp a - a| ≤ 1 / 131072 := by
  have hu := two_zpow_pos (ulp_exp a)
  have he : ulp_exp a ≤ -16 := by
    unfold ulp_exp
    apply max_le _ (by norm_num)
    rcases eq_or_lt_of_le ha with h0 | hpos
    · rw [← h0, Int.log_zero_right]; norm_num
    · have : Int.log 2 a < 8 := by
        rw [← Int.lt_zpow_iff_log_lt (by norm_num) hpos]
        norm_num
        exact hlt
      omega
  have hule : (2 : ℚ) ^ ulp_exp a ≤ 1 / 65536 := by
    calc (2 : ℚ) ^ ulp_exp a ≤ (2 : ℚ) ^ (-16 : Int) := zpow_le_zpow_right₀ (by norm_num) he
      _ = 1 / 65536 := by norm_num
  have hlo := round_even_lower (a / 2 ^ ulp_exp a)
  have hhi := round_even_upper (a / 2 ^ ulp_exp a)
  have hax : a = a / 2 ^ ulp_exp a * 2 ^ ulp_exp a := by
    field_simp
  unfold flp
  rw [abs_le]
  constructor
  · nlinarith
  · nlinarith

theorem fl_error {x : ℚ} (h : |x| < 256) : |fl x - x| ≤ 1 / 131072 := by
  rw [abs_lt] at h
  unfold fl
  split
  · rename_i hx
    exact flp_error hx h.2
  · rename_i hx
    have := flp_error (a := -x) (by linarith) (by linarith)
    rw [abs_le] at this ⊢
    constructor <;> linarith [this.1, this.2]


theorem fadd_mono_left {a b c : ℚ} (h : a ≤ b) : fadd a c ≤ fadd b c := by
  unfold fadd
  exact fl_mono (by linarith)

theorem fadd_error {a b : ℚ} (h : |a + b| < 256) : |fadd a b - (a + b)| ≤ 1 / 131072 := by
  unfold fadd
  exact fl_error h

theorem flp_zero : flp 0 = 0 := by decide!

theorem fl_neg (x : ℚ) : fl (-x) = -fl x := by
  unfold fl
  rcases lt_trichotomy x 0 with h | h | h
  · rw [if_pos (by linarith), if_neg (by linarith)]
    simp
  · subst h
    simp [flp_zero]
  · rw [if_neg (by linarith), if_pos (by linarith)]
    simp

theorem flp_grid (a : ℚ) : ∃ k : Int, flp a = (k : ℚ) * 2 ^ (-149 : Int) := by
  unfold flp
  have he : -149 ≤ ulp_exp a := le_max_right _ _
  obtain ⟨n, hn⟩ : ∃ n : Nat, ulp_exp a + 149 = (n : Int) := Int.eq_ofNat_of_zero_le (by omega)
  have h2 : (2 : ℚ) ^ ulp_exp a = (2 : ℚ) ^ (n : Int) * 2 ^ (-149 : Int) := by
    rw [← zpow_add₀ (by norm_num : (2 : ℚ) ≠ 0)]
    congr 1
    omega
  refine ⟨round_even (a / 2 ^ ulp_exp a) * 2 ^ n, ?_⟩
  rw [h2, zpow_natCast]
  push_cast
  ring

theorem fl_grid (x : ℚ) : ∃ k : Int, fl x = (k : ℚ) * 2 ^ (-149 : Int) := by
  unfold fl
  split
  · exact flp_grid x
  · obtain ⟨k, hk⟩ := flp_grid (-x)
    exact ⟨-k, by rw [hk]; push_cast; ring⟩

theorem fl_min_subnormal : fl (2 ^ (-149 : Int)) = 2 ^ (-149 : Int) := by
  have hpos : (0 : ℚ) < 2 ^ (-149 : Int) := two_zpow_pos _
  have hu : ulp_exp (2 ^ (-149 : Int)) = -149 := by
    have hl : Int.log 2 ((2 : ℚ) ^ (-149 : Int)) = -149 := by
      have h := Int.log_zpow (R := ℚ) (b := 2) (by norm_num) (-149)
      simpa using h
    unfold ulp_exp
    rw [hl]
    decide
  unfold fl flp
  rw [if_pos hpos.le, hu, div_self hpos.ne']
  have h1 : round_even 1 = 1 := by exact_mod_cast round_even_int 1
  rw [h1]
  simp

theorem fl_pos_of_grid {x : ℚ} (hx : 0 < x) (k : Int) (hk : x = (k : ℚ) * 2 ^ (-149 : Int)) :
    0 < fl x := by
  have hpos : (0 : ℚ) < 2 ^ (-149 : Int) := two_zpow_pos _
  have hk0 : 0 < k := by
    by_contra hneg
    push_neg at hneg
    have : (k : ℚ) ≤ 0 := by exact_mod_cast hneg
    have := mul_nonpos_of_nonpos_of_nonneg this hpos.le
    linarith
  have hk1 : (1 : ℚ) ≤ (k : ℚ) := by exact_mod_cast hk0
  have hge : (2 : ℚ) ^ (-149 : Int) ≤ x := by
    rw [hk]
    nlinarith
  have := fl_mono hge
  rw [fl_min_subnormal] at this
  linarith

theorem fl_abs {x : ℚ} (h : fl x = x) : fl |x| = |x| := by
  rcases abs_choice x with hx | hx
  · rw [hx, h]
  · rw [hx, fl_neg, h]

theorem fl_two_zpow (e : Int) (he : -126 ≤ e) : fl ((2 : ℚ) ^ e) = 2 ^ e := by
  have hpos : (0 : ℚ) < 2 ^ e := two_zpow_pos _
  have hl : Int.log 2 ((2 : ℚ) ^ e) = e := by
    have h := Int.log_zpow (R := ℚ) (b := 2) (by norm_num) e
    simpa using h
  have hu : ulp_exp ((2 : ℚ) ^ e) = e - 23 := by
    unfold ulp_exp
    rw [hl]
    exact max_eq_left (by omega)
  have hq : (2 : ℚ) ^ e / 2 ^ (e - 23) = ((8388608 : Int) : ℚ) := by
    rw [← zpow_sub₀ (by norm_num : (2 : ℚ) ≠ 0)]
    have : e - (e - 23) = 23 := by omega
    rw [this]
    norm_num
  unfold fl flp
  rw [if_pos hpos.le, hu, hq, round_even_int]
  rw [zpow_sub₀ (by norm_num : (2 : ℚ) ≠ 0)]
  have h23 : (2 : ℚ) ^ (23 : Int) = 8388608 := by norm_num
  rw [h23]
  push_cast
  field_simp

/-- The float constants of `data.h` are the binary32 roundings of their
decimal literals. -/
theorem float_literals :
    fl (15 / 100) = PADDLE_SPEED ∧ fl (25 / 100) = BALL_SPEED ∧ fl (4 / 1000) = BASE_MODIFIER ∧
      fl (85 / 1000) = EASY_SPEED ∧ fl (12 / 100) = HARD_SPEED := by
  decide!

/-! ### The rasteriser -/

set_option maxRecDepth 100000 in
theorem byte_clear_bit :
    ∀ b < 256, ∀ s < 8, b.testBit s = true →
      (b - 2 ^ s < 256 ∧ 2 ^ s ≤ b) ∧
        ∀ t < 8, (b - 2 ^ s).testBit t = (b.testBit t && decide (t ≠ s)) := by
  decide

theorem to_int_of_nonneg {q : ℚ} (h : 0 ≤ q) : to_int q = ⌊q⌋ := by
  simp [to_int, h]

theorem draw_pixel_eq (o : object) (obj : Nat → Nat) (FX FY j i : Nat)
    (hx : 0 ≤ o.x) (hy : 0 ≤ o.y) (hFX : ⌊o.x⌋ = (FX : Int)) (hFY : ⌊o.y⌋ = (FY : Int))
    (hj : FX + j < 128) (hi : FY + i < 32)
    (hpage : to_int (fdiv (fadd o.y ((i : Int) : ℚ)) 8) = ((FY : Int) + (i : Int)) / 8)
    (hb : 2 ^ ((FY + i) % 8) ≤ obj ((FY + i) / 8 * 128 + (FX + j)))
    (hlt : obj ((FY + i) / 8 * 128 + (FX + j)) < 256) :
    draw_pixel o obj (j : Int) (i : Int) = some (clr obj (FX + j) (FY + i)) := by
  unfold draw_pixel
  simp only []
  rw [hpage, to_int_of_nonneg hx, to_int_of_nonneg hy, hFX, hFY]
  have e1 : ((FY : Int) + (i : Int)) / 8 = (((FY + i) / 8 : Nat) : Int) := by omega
  have e2 : (((FY + i) / 8 : Nat) : Int) * 128 + (FX : Int) + (j : Int)
      = (((FY + i) / 8 * 128 + (FX + j) : Nat) : Int) := by push_cast; ring
  have e3 : (FY : Int) + (i : Int) - (((FY + i) / 8 : Nat) : Int) * 8
      = (((FY + i) % 8 : Nat) : Int) := by omega
  rw [e1, e2, e3]
  have c1 : (FY + i) / 8 * 128 + (FX + j) < 512 := by omega
  have c2 : (FY + i) % 8 < 8 := by omega
  rw [if_pos (by omega)]
  simp only [Int.toNat_ofNat, clr]
  congr 2
  have h5 : (((obj ((FY + i) / 8 * 128 + (FX + j)) : Nat) : Int) - 2 ^ ((FY + i) % 8))
      = ((obj ((FY + i) / 8 * 128 + (FX + j)) - 2 ^ ((FY + i) % 8) : Nat) : Int) := by
    rw [Nat.cast_sub hb]; push_cast; rfl
  rw [h5]
  have h6 : obj ((FY + i) / 8 * 128 + (FX + j)) - 2 ^ ((FY + i) % 8) < 256 :=
    lt_of_le_of_lt (Nat.sub_le _ _) hlt
  rw [Int.emod_eq_of_lt (Int.natCast_nonneg _) (by exact_mod_cast h6), Int.toNat_ofNat]

theorem raster_inv_step (obj : Nat → Nat) (FX FY H J I : Nat)
    (hinv : raster_inv obj FX FY H J I) (hJ : FX + J < 128) (hI : FY + I < 32) :
    (2 ^ ((FY + I) % 8) ≤ obj ((FY + I) / 8 * 128 + (FX + J)) ∧
      obj ((FY + I) / 8 * 128 + (FX + J)) < 256) ∧
    raster_inv (clr obj (FX + J) (FY + I)) FX FY H J (I + 1) := by
  obtain ⟨hlt, hpix⟩ := hinv
  have hk0 : (FY + I) / 8 * 128 + (FX + J) < 512 := by omega
  have hs : (FY + I) % 8 < 8 := by omega
  have hset : (obj ((FY + I) / 8 * 128 + (FX + J))).testBit ((FY + I) % 8) = true := by
    have h := hpix (FX + J) (FY + I) hJ hI
    unfold pixel_on drawn at h
    cases hb : (obj ((FY + I) / 8 * 128 + (FX + J))).testBit ((FY + I) % 8)
    · exfalso
      have := h.mp hb
      omega
    · rfl
  obtain ⟨⟨h256, hle⟩, hbits⟩ := byte_clear_bit _ (hlt _ hk0) _ hs hset
  refine ⟨⟨hle, hlt _ hk0⟩, ?_, ?_⟩
  · intro k hk
    unfold clr
    by_cases hkk : k = (FY + I) / 8 * 128 + (FX + J)
    · subst hkk
      simpa using h256
    · rw [Function.update_noteq hkk]
      exact hlt k hk
  · intro px py hpx hpy
    have h := hpix px py hpx hpy
    unfold pixel_on drawn at h ⊢
    unfold clr
    by_cases hkk : py / 8 * 128 + px = (FY + I) / 8 * 128 + (FX + J)
    · have hpxe : px = FX + J := by omega
      have hpage : py / 8 = (FY + I) / 8 := by omega
      rw [hkk, Function.update_same, hbits _ (by omega : py % 8 < 8)]
      rw [hkk] at h
      by_cases hsame : py % 8 = (FY + I) % 8
      · have hpye : py = FY + I := by omega
        simp only [hsame, ne_eq, not_true_eq_false, decide_False, Bool.and_false, true_iff]
        right
        omega
      · have hpyne : py ≠ FY + I := fun hc => hsame (by rw [hc])
        simp only [ne_eq, hsame, not_false_eq_true, decide_True, Bool.and_true]
        rw [h]
        constructor
        · rintro (h1 | h1)
          · left; exact h1
          · right; omega
        · rintro (h1 | h1)
          · left; exact h1
          · right; omega
    · rw [Function.update_noteq hkk, h]
      constructor
      · rintro (h1 | h1)
        · left; exact h1
        · right; omega
      · rintro (h1 | h1)
        · left; exact h1
        · right
          refine ⟨h1.1, h1.2.1, ?_⟩
          by_contra hc
          have : py = FY + I := by omega
          apply hkk
          rw [h1.1, this]

theorem draw_rows_inv (o : object) (FX FY H J : Nat)
    (hx : 0 ≤ o.x) (hy : 0 ≤ o.y) (hFX : ⌊o.x⌋ = (FX : Int)) (hFY : ⌊o.y⌋ = (FY : Int))
    (hJ : FX + J < 128) (hH : FY + H ≤ 32)
    (hpage : ∀ i : Nat, i < H →
      to_int (fdiv (fadd o.y ((i : Int) : ℚ)) 8) = ((FY : Int) + (i : Int)) / 8) :
    ∀ n, n ≤ H → ∀ obj, raster_inv obj FX FY H J 0 →
      ∃ obj1, draw_rows o (J : Int) n obj = some obj1 ∧ raster_inv obj1 FX FY H J n := by
  intro n
  induction n with
  | zero => intro _ obj h; exact ⟨obj, rfl, h⟩
  | succ n ih =>
    intro hn obj h
    obtain ⟨obj1, e1, inv1⟩ := ih (by omega) obj h
    obtain ⟨⟨hb, hlt⟩, inv2⟩ := raster_inv_step obj1 FX FY H J n inv1 hJ (by omega)
    refine ⟨clr obj1 (FX + J) (FY + n), ?_, inv2⟩
    simp only [draw_rows, e1, Option.some_bind]
    exact draw_pixel_eq o obj1 FX FY J n hx hy hFX hFY hJ (by omega) (hpage n (by omega)) hb hlt

theorem clear_loop_apply (d : Nat → Nat) : ∀ n k, clear_loop n d k = if k < n then 255 else d k := by
  intro n
  induction n with
  | zero => intro k; simp [clear_loop]
  | succ n ih =>
    intro k
    simp only [clear_loop]
    by_cases hk : k = n
    · subst hk; simp
    · rw [Function.update_noteq hk, ih]
      by_cases h1 : k < n
      · simp [h1, Nat.lt_succ_of_lt h1]
      · have : ¬ k < n + 1 := by omega
        simp [h1, this]

theorem draw_cols_inv (o : object) (FX FY H W : Nat)
    (hx : 0 ≤ o.x) (hy : 0 ≤ o.y) (hFX : ⌊o.x⌋ = (FX : Int)) (hFY : ⌊o.y⌋ = (FY : Int))
    (hh : o.height = (H : Int)) (hW : FX + W ≤ 128) (hH : FY + H ≤ 32)
    (hpage : ∀ i : Nat, i < H →
      to_int (fdiv (fadd o.y ((i : Int) : ℚ)) 8) = ((FY : Int) + (i : Int)) / 8) :
    ∀ n, n ≤ W →
      ∃ obj1, draw_cols o n (clear_loop 512 o.data) = some obj1 ∧ raster_inv obj1 FX FY H n 0 := by
  intro n
  induction n with
  | zero =>
    intro _
    refine ⟨_, rfl, ?_, ?_⟩
    · intro k hk
      rw [clear_loop_apply, if_pos hk]
      norm_num
    · intro px py hpx hpy
      unfold pixel_on drawn
      rw [clear_loop_apply, if_pos (by omega)]
      have h8 : py % 8 < 8 := by omega
      have : Nat.testBit 255 (py % 8) = true := by
        revert h8
        generalize py % 8 = t
        revert t
        decide
      rw [this]
      constructor
      · intro hc; cases hc
      · rintro (h1 | h1) <;> omega
  | succ n ih =>
    intro hn
    obtain ⟨obj1, e1, inv1⟩ := ih (by omega)
    obtain ⟨obj2, e2, inv2⟩ :=
      draw_rows_inv o FX FY H n hx hy hFX hFY (by omega) hH hpage H (le_refl H) obj1 inv1
    refine ⟨obj2, ?_, inv2.1, ?_⟩
    · simp only [draw_cols, e1, Option.some_bind, hh, Int.toNat_ofNat]
      exact e2
    · intro px py hpx hpy
      rw [inv2.2 px py hpx hpy]
      unfold drawn
      constructor
      · rintro (h1 | h1)
        · left; omega
        · left; omega
      · rintro (h1 | h1)
        · by_cases hp : px = FX + n
          · right; omega
          · left; omega
        · omega

theorem pixel_off_iff (d : Nat → Nat) (px py : Nat) : pixel_off d px py ↔ ¬ pixel_on d px py := by
  unfold pixel_off pixel_on
  cases (d (py / 8 * 128 + px)).testBit (py % 8) <;> simp

theorem rasterize_rectangle (o : object) (hx : 0 ≤ o.x) (hy : 0 ≤ o.y)
    (hw : 0 ≤ o.width) (hh : 0 ≤ o.height)
    (hxw : to_int o.x + o.width ≤ 128) (hyh : to_int o.y + o.height ≤ 32)
    (hpage : ∀ i : Nat, (i : Int) < o.height →
      to_int (fdiv (fadd o.y ((i : Int) : ℚ)) 8) = (to_int o.y + (i : Int)) / 8) :
    ∃ d, rasterize o = some { o with data := d } ∧
      ∀ px py, px < 128 → py < 32 → (pixel_on d px py ↔ in_rect o px py) := by
  have hfx : 0 ≤ ⌊o.x⌋ := Int.floor_nonneg.mpr hx
  have hfy : 0 ≤ ⌊o.y⌋ := Int.floor_nonneg.mpr hy
  rw [to_int_of_nonneg hx] at hxw
  rw [to_int_of_nonneg hy] at hyh
  obtain ⟨FX, hFX⟩ := Int.eq_ofNat_of_zero_le hfx
  obtain ⟨FY, hFY⟩ := Int.eq_ofNat_of_zero_le hfy
  obtain ⟨W, hW⟩ := Int.eq_ofNat_of_zero_le hw
  obtain ⟨H, hH⟩ := Int.eq_ofNat_of_zero_le hh
  have hpage1 : ∀ i : Nat, i < H →
      to_int (fdiv (fadd o.y ((i : Int) : ℚ)) 8) = ((FY : Int) + (i : Int)) / 8 := by
    intro i hi
    have := hpage i (by omega)
    rw [to_int_of_nonneg hy, hFY] at this
    exact this
  obtain ⟨d, e, inv⟩ :=
    draw_cols_inv o FX FY H W hx hy hFX hFY hH (by omega) (by omega) hpage1 W (le_refl W)
  refine ⟨d, ?_, ?_⟩
  · simp only [rasterize, hW, Int.toNat_ofNat, e, Option.map_some']
  · intro px py hpx hpy
    rw [inv.2 px py hpx hpy]
    unfold drawn in_rect
    rw [to_int_of_nonneg hx, to_int_of_nonneg hy, hFX, hFY, hW, hH]
    constructor
    · rintro (h1 | h1) <;> omega
    · intro h1; left; omega

theorem state_get_set (s : state) (id : obj_id) (o : object) : (s.set id o).get id = o := by
  cases id <;> rfl

theorem draw_screen_get (s : state) (id : obj_id) : (draw_screen s).get id = s.get id := by
  cases id <;> rfl

/-- C1 at its failing input: a 2x8 paddle at `x = 5` whose `y` is the binary32
value just below 1 meets every hypothesis of the claim and pixel `(5, 7)` lies
in its rectangle, but the float sum `y + 7` is 8, so row 7 gets page 1 with the
shift count `0 + 7 - 8 = -1` and `draw_object` has no defined result. -/
theorem draw_object_page_edge_undefined :
    0 ≤ (paddle_below_row_one.get obj_id.P1).x ∧ 0 ≤ (paddle_below_row_one.get obj_id.P1).y ∧
      0 ≤ (paddle_below_row_one.get obj_id.P1).width ∧
      0 ≤ (paddle_below_row_one.get obj_id.P1).height ∧
      to_int (paddle_below_row_one.get obj_id.P1).x +
        (paddle_below_row_one.get obj_id.P1).width ≤ 128 ∧
      to_int (paddle_below_row_one.get obj_id.P1).y +
        (paddle_below_row_one.get obj_id.P1).height ≤ 32 ∧
      in_rect (paddle_below_row_one.get obj_id.P1) 5 7 ∧
      fadd (paddle_below_row_one.get obj_id.P1).y 7 = 8 ∧
      to_int (fdiv (fadd (paddle_below_row_one.get obj_id.P1).y 7) 8) = 1 ∧
      (draw_object paddle_below_row_one obj_id.P1).isSome = false := by
  decide!

/-! ### The compositor -/

theorem draw_screen_loop_apply (s : state) (scr : Nat → Nat) :
    ∀ n k, draw_screen_loop s n scr k =
      if k < n then s.p1.data k &&& s.p2.data k &&& s.b.data k &&& s.score k else scr k := by
  intro n
  induction n with
  | zero => intro k; simp [draw_screen_loop]
  | succ n ih =>
    intro k
    simp only [draw_screen_loop]
    by_cases hk : k = n
    · subst hk; simp
    · rw [Function.update_noteq hk, ih]
      by_cases h1 : k < n
      · simp [h1, Nat.lt_succ_of_lt h1]
      · have : ¬ k < n + 1 := by omega
        simp [h1, this]

/-- C2: after `draw_screen` every byte of `screen` is the AND of the bytes of
the four layers at the same index, and the four layer buffers are unchanged. -/
theorem draw_screen_is_and (s : state) (i : Nat) (hi : i < 512) :
    (draw_screen s).screen i = s.p1.data i &&& s.p2.data i &&& s.b.data i &&& s.score i ∧
      (draw_screen s).p1.data = s.p1.data ∧ (draw_screen s).p2.data = s.p2.data ∧
      (draw_screen s).b.data = s.b.data ∧ (draw_screen s).score = s.score := by
  refine ⟨?_, rfl, rfl, rfl, rfl⟩
  simp only [draw_screen]
  rw [draw_screen_loop_apply, if_pos hi]

/-- Index 7 of `game_start` meets the hypothesis of the compositor theorem. -/
theorem draw_screen_is_and_witness :
    (draw_screen game_start).screen 7 =
        game_start.p1.data 7 &&& game_start.p2.data 7 &&& game_start.b.data 7 &&&
          game_start.score 7 ∧
      (draw_screen game_start).p1.data = game_start.p1.data ∧
      (draw_screen game_start).p2.data = game_start.p2.data ∧
      (draw_screen game_start).b.data = game_start.b.data ∧
      (draw_screen game_start).score = game_start.score :=
  draw_screen_is_and game_start 7 (by decide)

/-! ### Paddle motion -/

theorem fl_le_of_le {x c : ℚ} (h : x ≤ c) (hc : fl c = c) : fl x ≤ c := by
  have := fl_mono h
  rwa [hc] at this

theorem le_fl_of_le {x c : ℚ} (h : c ≤ x) (hc : fl c = c) : c ≤ fl x := by
  have := fl_mono h
  rwa [hc] at this

theorem rasterize_some_eq {o o1 : object} (h : rasterize o = some o1) :
    ∃ d, o1 = { o with data := d } := by
  unfold rasterize at h
  rw [Option.map_eq_some'] at h
  obtain ⟨d, _, hd⟩ := h
  exact ⟨d, hd.symm⟩

theorem draw_object_some_get {s s1 : state} {id : obj_id} (h : draw_object s id = some s1) :
    ∃ d, s1.get id = { s.get id with data := d } := by
  unfold draw_object at h
  rw [Option.map_eq_some'] at h
  obtain ⟨o, ho, hs⟩ := h
  obtain ⟨d, hd⟩ := rasterize_some_eq ho
  refine ⟨d, ?_⟩
  rw [← hs, draw_screen_get, state_get_set, hd]

theorem move_paddle_step_bounds (p : object) (hy0 : 0 ≤ p.y)
    (hy1 : p.y ≤ ((field_height - p.height : Int) : ℚ))
    (hh : p.height = PADDLE_HEIGHT) (hv : paddle_velocity p.v_y) :
    -PADDLE_SPEED ≤ (move_paddle_step p).y ∧
      (move_paddle_step p).y ≤ ((field_height - (move_paddle_step p).height : Int) : ℚ) ∧
      (move_paddle_step p).height = p.height := by
  have f0 : fl 0 = 0 := by decide!
  have f24 : fl 24 = 24 := by decide!
  have fP : fl (-PADDLE_SPEED) = -PADDLE_SPEED := by decide!
  have fE : fl (-EASY_SPEED) = -EASY_SPEED := by decide!
  have fH : fl (-HARD_SPEED) = -HARD_SPEED := by decide!
  have hP : (0 : ℚ) < PADDLE_SPEED ∧ PADDLE_SPEED ≤ 1 := by decide!
  have hE : (0 : ℚ) < EASY_SPEED ∧ EASY_SPEED ≤ PADDLE_SPEED := by decide!
  have hH : (0 : ℚ) < HARD_SPEED ∧ HARD_SPEED ≤ PADDLE_SPEED := by decide!
  have hy24 : p.y ≤ 24 := by
    rw [hh] at hy1
    simpa [field_height, PADDLE_HEIGHT] using hy1
  have hgoal : ∀ y1 : ℚ, -PADDLE_SPEED ≤ y1 → y1 ≤ 24 →
      -PADDLE_SPEED ≤ y1 ∧ y1 ≤ ((field_height - p.height : Int) : ℚ) := by
    intro y1 h1 h2
    refine ⟨h1, ?_⟩
    rw [hh]
    simpa [field_height, PADDLE_HEIGHT] using h2
  unfold move_paddle_step
  split
  · rename_i hc
    simp only
    refine ⟨(hgoal _ ?_ ?_).1, (hgoal _ ?_ ?_).2, trivial⟩
    all_goals
      unfold fadd
      rw [hh] at hc
      simp only [PADDLE_HEIGHT] at hc
      norm_num at hc
      unfold paddle_velocity at hv
    · rcases hc with hc | hc
      · rcases hv with hv | hv | hv | hv | hv | hv | hv <;> rw [hv] at hc ⊢
        · exact absurd hc.2 (lt_irrefl 0)
        · linarith [hc.2, hP.1]
        · rw [← fP]; exact fl_mono (by linarith [hc.1])
        · linarith [hc.2, hE.1]
        · have := le_fl_of_le (x := p.y + -EASY_SPEED) (c := -EASY_SPEED) (by linarith [hc.1]) fE
          linarith [hE.2]
        · linarith [hc.2, hH.1]
        · have := le_fl_of_le (x := p.y + -HARD_SPEED) (c := -HARD_SPEED) (by linarith [hc.1]) fH
          linarith [hH.2]
      · have := le_fl_of_le (x := p.y + p.v_y) (c := 0) (by linarith [hc.2]) f0
        linarith [hP.1]
    · rcases hc with hc | hc
      · exact fl_le_of_le (by linarith [hc.2]) f24
      · apply fl_le_of_le _ f24
        rcases hv with hv | hv | hv | hv | hv | hv | hv <;> rw [hv] at hc ⊢ <;>
          linarith [hc.1, hc.2, hP.1, hP.2, hE.1, hE.2, hH.1, hH.2]
    · rcases hc with hc | hc
      · rcases hv with hv | hv | hv | hv | hv | hv | hv <;> rw [hv] at hc ⊢
        · exact absurd hc.2 (lt_irrefl 0)
        · linarith [hc.2, hP.1]
        · rw [← fP]; exact fl_mono (by linarith [hc.1])
        · linarith [hc.2, hE.1]
        · have := le_fl_of_le (x := p.y + -EASY_SPEED) (c := -EASY_SPEED) (by linarith [hc.1]) fE
          linarith [hE.2]
        · linarith [hc.2, hH.1]
        · have := le_fl_of_le (x := p.y + -HARD_SPEED) (c := -HARD_SPEED) (by linarith [hc.1]) fH
          linarith [hH.2]
      · have := le_fl_of_le (x := p.y + p.v_y) (c := 0) (by linarith [hc.2]) f0
        linarith [hP.1]
    · rcases hc with hc | hc
      · exact fl_le_of_le (by linarith [hc.2]) f24
      · apply fl_le_of_le _ f24
        rcases hv with hv | hv | hv | hv | hv | hv | hv <;> rw [hv] at hc ⊢ <;>
          linarith [hc.1, hc.2, hP.1, hP.2, hE.1, hE.2, hH.1, hH.2]
  · exact ⟨(hgoal p.y (by linarith [hP.1]) hy24).1, (hgoal p.y (by linarith [hP.1]) hy24).2, rfl⟩

/-- C3, as stated, fails: a paddle one eighth of a row below the top that moves
up by `PADDLE_SPEED` is inside the field before `move_paddle` and at
`y = -838861 / 2 ^ 25`, about -0.025, above the field, after it. -/
theorem move_paddle_overshoots_top :
    0 ≤ (paddle_near_top.get obj_id.P1).y ∧
      (paddle_near_top.get obj_id.P1).y ≤
        ((field_height - (paddle_near_top.get obj_id.P1).height : Int) : ℚ) ∧
      (paddle_near_top.get obj_id.P1).height = PADDLE_HEIGHT ∧
      (paddle_near_top.get obj_id.P1).v_y = -PADDLE_SPEED ∧
      (move_paddle paddle_near_top obj_id.P1).map (fun s1 => (s1.get obj_id.P1).y)
        = some (-838861 / 33554432) ∧
      ¬ ((0 : ℚ) ≤ -838861 / 33554432) := by
  decide!

/-- C3, amended: for a paddle of the game inside the field and a velocity the
game assigns, the position that `move_paddle` writes is at least
`-PADDLE_SPEED` (the binary32 value of `0.15f`) and at most
`field_height - height`, and every state that `move_paddle` returns holds that
position. -/
theorem move_paddle_bounds (s : state) (id : obj_id)
    (hy0 : 0 ≤ (s.get id).y)
    (hy1 : (s.get id).y ≤ ((field_height - (s.get id).height : Int) : ℚ))
    (hh : (s.get id).height = PADDLE_HEIGHT) (hv : paddle_velocity (s.get id).v_y) :
    -PADDLE_SPEED ≤ (move_paddle_step (s.get id)).y ∧
      (move_paddle_step (s.get id)).y ≤ ((field_height - (s.get id).height : Int) : ℚ) ∧
      ∀ s1, move_paddle s id = some s1 →
        (s1.get id).y = (move_paddle_step (s.get id)).y ∧
          -PADDLE_SPEED ≤ (s1.get id).y ∧
          (s1.get id).y ≤ ((field_height - (s1.get id).height : Int) : ℚ) := by
  obtain ⟨b1, b2, b3⟩ := move_paddle_step_bounds (s.get id) hy0 hy1 hh hv
  rw [b3] at b2
  refine ⟨b1, b2, ?_⟩
  intro s1 h1
  unfold move_paddle at h1
  obtain ⟨d, hd⟩ := draw_object_some_get h1
  rw [hd, state_get_set]
  simp only
  rw [b3]
  exact ⟨trivial, b1, b2⟩

/-- Paddle 1 of `paddle_near_top` moves up by `PADDLE_SPEED` and passes the top
edge; `move_paddle` returns there. -/
theorem move_paddle_bounds_witness :
    (-PADDLE_SPEED ≤ (move_paddle_step (paddle_near_top.get obj_id.P1)).y ∧
      (move_paddle_step (paddle_near_top.get obj_id.P1)).y ≤
        ((field_height - (paddle_near_top.get obj_id.P1).height : Int) : ℚ) ∧
      ∀ s1, move_paddle paddle_near_top obj_id.P1 = some s1 →
        (s1.get obj_id.P1).y = (move_paddle_step (paddle_near_top.get obj_id.P1)).y ∧
          -PADDLE_SPEED ≤ (s1.get obj_id.P1).y ∧
          (s1.get obj_id.P1).y ≤ ((field_height - (s1.get obj_id.P1).height : Int) : ℚ)) ∧
    (move_paddle paddle_near_top obj_id.P1).isSome = true :=
  ⟨move_paddle_bounds paddle_near_top obj_id.P1 (by decide!) (by decide!) (by decide!)
    (Or.inr (Or.inr (Or.inl rfl))), by decide!⟩

/-! ### The overlap test -/

theorem in_object_rows_spec (o1 o2 : object) (i : Int) :
    ∀ rem j, (in_object_rows o1 o2 i rem j = 1 ∧ ∃ k : Nat, k < rem ∧ in_cell o1 o2 i (j + k)) ∨
      (in_object_rows o1 o2 i rem j = 0 ∧ ∀ k : Nat, k < rem → ¬ in_cell o1 o2 i (j + k)) := by
  intro rem
  induction rem with
  | zero => intro j; right; exact ⟨rfl, fun k hk => absurd hk (Nat.not_lt_zero k)⟩
  | succ n ih =>
    intro j
    simp only [in_object_rows]
    by_cases hc : in_cell o1 o2 i j
    · left
      rw [if_pos hc]
      exact ⟨rfl, 0, Nat.succ_pos n, by simpa using hc⟩
    · rw [if_neg hc]
      rcases ih (j + 1) with ⟨h1, k, hk, hk2⟩ | ⟨h0, hall⟩
      · left
        refine ⟨h1, k + 1, by omega, ?_⟩
        have : j + ((k + 1 : Nat) : Int) = j + 1 + (k : Int) := by push_cast; ring
        rw [this]; exact hk2
      · right
        refine ⟨h0, ?_⟩
        intro k hk
        cases k with
        | zero => simpa using hc
        | succ k =>
          have : j + ((k + 1 : Nat) : Int) = j + 1 + (k : Int) := by push_cast; ring
          rw [this]; exact hall k (by omega)

theorem in_object_cols_spec (o1 o2 : object) :
    ∀ rem i,
      (in_object_cols o1 o2 rem i = 1 ∧
        ∃ k l : Nat, k < rem ∧ l < o1.height.toNat ∧ in_cell o1 o2 (i + k) l) ∨
      (in_object_cols o1 o2 rem i = 0 ∧
        ∀ k l : Nat, k < rem → l < o1.height.toNat → ¬ in_cell o1 o2 (i + k) l) := by
  intro rem
  induction rem with
  | zero => intro i; right; exact ⟨rfl, fun k l hk => absurd hk (Nat.not_lt_zero k)⟩
  | succ n ih =>
    intro i
    simp only [in_object_cols]
    rcases in_object_rows_spec o1 o2 i o1.height.toNat 0 with ⟨h1, l, hl, hl2⟩ | ⟨h0, hall⟩
    · left
      rw [h1, if_pos (by decide)]
      refine ⟨rfl, 0, l, Nat.succ_pos n, hl, ?_⟩
      simpa using hl2
    · rw [h0, if_neg (by decide)]
      rcases ih (i + 1) with ⟨h1, k, l, hk, hl, hkl⟩ | ⟨h00, hall2⟩
      · left
        refine ⟨h1, k + 1, l, by omega, hl, ?_⟩
        have : i + ((k + 1 : Nat) : Int) = i + 1 + (k : Int) := by push_cast; ring
        rw [this]; exact hkl
      · right
        refine ⟨h00, ?_⟩
        intro k l hk hl
        cases k with
        | zero => simpa using hall l hl
        | succ k =>
          have : i + ((k + 1 : Nat) : Int) = i + 1 + (k : Int) := by push_cast; ring
          rw [this]; exact hall2 k l (by omega) hl

theorem cell_inside_iff (o1 o2 : object) :
    cell_inside o1 o2 ↔
      ∃ k l : Nat, k < o1.width.toNat ∧ l < o1.height.toNat ∧ in_cell o1 o2 (0 + k) l := by
  unfold cell_inside in_cell
  constructor
  · rintro ⟨i, j, hi0, hi1, hj0, hj1, h1, h2, h3, h4⟩
    refine ⟨i.toNat, j.toNat, by omega, by omega, ?_⟩
    rw [zero_add, Int.toNat_of_nonneg hi0, Int.toNat_of_nonneg hj0]
    exact ⟨h1, h2, h4, h3⟩
  · rintro ⟨k, l, hk, hl, h1, h2, h3, h4⟩
    rw [zero_add] at h1 h2
    exact ⟨k, l, by omega, by omega, by omega, by omega, h1, h2, h4, h3⟩

theorem in_object_cell_test (o1 o2 : object) :
    (in_object o1 o2 = 1 ↔ cell_inside o1 o2) ∧
      (in_object o1 o2 = 0 ↔ ¬ cell_inside o1 o2) := by
  rw [cell_inside_iff]
  unfold in_object
  rcases in_object_cols_spec o1 o2 o1.width.toNat 0 with ⟨h1, hex⟩ | ⟨h0, hall⟩
  · rw [h1]
    exact ⟨⟨fun _ => hex, fun _ => rfl⟩, ⟨fun h => absurd h (by decide), fun h => absurd hex h⟩⟩
  · rw [h0]
    have hno : ¬ ∃ k l : Nat, k < o1.width.toNat ∧ l < o1.height.toNat ∧
        in_cell o1 o2 (0 + k) l := by
      rintro ⟨k, l, hk, hl, hc⟩
      exact hall k l hk hl hc
    exact ⟨⟨fun h => absurd h (by decide), fun h => absurd h hno⟩, ⟨fun _ => hno, fun _ => rfl⟩⟩

/-- C4: `in_object` returns 1 exactly when some cell of object 1 lies within the
inclusive bounds of object 2, and 0 otherwise. -/
theorem in_object_is_cell_test (o1 o2 : object) :
    (in_object o1 o2 = 1 ↔ cell_inside o1 o2) ∧
      (in_object o1 o2 = 0 ↔ ¬ cell_inside o1 o2) :=
  in_object_cell_test o1 o2

/-! ### Ball motion -/

theorem wall_walk_some : ∀ (fuel : Nat) (b b1 : object), wall_walk fuel b = some b1 →
    ¬ wall_hit b1 ∧ b1.height = b.height ∧ b1.width = b.width := by
  intro fuel
  induction fuel with
  | zero =>
    intro b b1 h
    simp only [wall_walk] at h
    split at h
    · cases h
    · rename_i hn
      cases h
      exact ⟨hn, rfl, rfl⟩
  | succ n ih =>
    intro b b1 h
    simp only [wall_walk] at h
    split at h
    · exact ih (walk b) b1 h
    · rename_i hn
      cases h
      exact ⟨hn, rfl, rfl⟩

theorem wall_reflect_size (b : object) :
    (wall_reflect b).height = b.height ∧ (wall_reflect b).width = b.width := by
  unfold wall_reflect
  split <;> exact ⟨rfl, rfl⟩

theorem vertical_collision_some (fuel : Nat) (b b1 : object)
    (h : vertical_collision fuel b = some b1) :
    ¬ wall_hit b1 ∧ b1.height = b.height ∧ b1.width = b.width := by
  unfold vertical_collision at h
  split at h
  · obtain ⟨h1, h2, h3⟩ := wall_walk_some fuel _ b1 h
    exact ⟨h1, h2.trans (wall_reflect_size b).1, h3.trans (wall_reflect_size b).2⟩
  · rename_i hn
    cases h
    exact ⟨hn, rfl, rfl⟩

/-- C5: when `move_ball` takes the vertical-wall branch and the correction loop
ends, the ball leaves the branch with `0 <= y <= field_height - height`. -/
theorem wall_branch_back_in_field (fuel : Nat) (s : state)
    (hhit : wall_hit (integrate s).b)
    (hterm : (wall_branch fuel (integrate s).b).isSome = true) :
    ∃ b1, vertical_collision fuel (integrate s).b = some b1 ∧
      0 ≤ b1.y ∧ b1.y ≤ ((field_height - b1.height : Int) : ℚ) := by
  obtain ⟨b1, hb1⟩ := Option.isSome_iff_exists.mp hterm
  have hv : vertical_collision fuel (integrate s).b = some b1 := by
    unfold vertical_collision
    rw [if_pos hhit, hb1]
  obtain ⟨hn, _, _⟩ := vertical_collision_some fuel _ b1 hv
  refine ⟨b1, hv, ?_, ?_⟩
  · unfold wall_hit at hn
    push_neg at hn
    exact le_of_lt hn.1
  · unfold wall_hit at hn
    push_neg at hn
    have h2 := hn.2
    simp only [field_height]
    push_cast at h2 ⊢
    linarith

/-- The ball of `ball_near_top` crosses the top wall and is walked back in one step. -/
theorem wall_branch_back_in_field_witness :
    ∃ b1, vertical_collision 4 (integrate ball_near_top).b = some b1 ∧
      0 ≤ b1.y ∧ b1.y ≤ ((field_height - b1.height : Int) : ℚ) :=
  wall_branch_back_in_field 4 ball_near_top (by decide!) (by decide!)

/-- C6 at its failing input: the ball reaches the horizontal-edge test with
`x = 0`, on the left bound, and `move_ball` gives the point to player 1. -/
theorem move_ball_left_bound_scores_player1 :
    (move_ball_to_edge 4 ball_near_left_edge).map (fun s1 => s1.b.x) = some 0 ∧
      (move_ball 4 ball_near_left_edge).map (fun s1 => (s1.p1.score, s1.p2.score))
        = some (ball_near_left_edge.p1.score + 1, ball_near_left_edge.p2.score) := by
  decide!


theorem in_object_eq_zero_of_left (o1 o2 : object)
    (h : ∀ i : Int, 0 ≤ i → i < o1.width → o2.x + (o2.width : ℚ) < o1.x + (i : ℚ)) :
    in_object o1 o2 = 0 := by
  rw [(in_object_cell_test o1 o2).2]
  rintro ⟨i, j, hi0, hi1, _, _, _, h2, _, _⟩
  exact absurd h2 (not_le.mpr (h i hi0 hi1))

theorem in_object_eq_zero_of_right (o1 o2 : object)
    (h : ∀ i : Int, 0 ≤ i → i < o1.width → o1.x + (i : ℚ) < o2.x) :
    in_object o1 o2 = 0 := by
  rw [(in_object_cell_test o1 o2).2]
  rintro ⟨i, j, hi0, hi1, _, _, h1, _, _, _⟩
  exact absurd h1 (not_le.mpr (h i hi0 hi1))

/-- C7: a ball on the left edge that moves left, with no wall contact after the
integration and the paddles at their game columns (the width of paddle 2 plays
no part), makes `move_ball` return
with player 2 one point up, player 1 unchanged, the ball at `(63, 15)`,
`t_mod` at 1, `start_dir` negated and both velocity components equal to
`start_dir * BALL_SPEED / 2` for the new `start_dir`; their magnitude is 0.125
since `start_dir` is 1 or -1. -/
theorem move_ball_left_edge_out (fuel : Nat) (s : state)
    (hx : s.b.x = 0) (hvx : s.b.v_x < 0) (ht : 0 < s.t_mod)
    (hwall : ¬ wall_hit (integrate s).b)
    (hbw : s.b.width = BALL_SIZE) (hbh : s.b.height = BALL_SIZE)
    (hp1x : s.p1.x = 5) (hp1w : s.p1.width = PADDLE_WIDTH)
    (hp2x : s.p2.x = 122) :
    ∃ s1, move_ball fuel s = some s1 ∧
      s1.p2.score = s.p2.score + 1 ∧ s1.p1.score = s.p1.score ∧
      s1.b.x = 63 ∧ s1.b.y = 15 ∧ s1.t_mod = 1 ∧ s1.start_dir = -s.start_dir ∧
      s1.b.v_x = (s1.start_dir : ℚ) * BALL_SPEED / 2 ∧
      s1.b.v_y = (s1.start_dir : ℚ) * BALL_SPEED / 2 ∧
      (s.start_dir = 1 ∨ s.start_dir = -1 → |s1.b.v_x| = 1 / 8 ∧ |s1.b.v_y| = 1 / 8) := by
  have hneg : (integrate s).b.x < 0 := by
    simp only [integrate, hx, zero_add]
    exact mul_neg_of_neg_of_pos hvx ht
  have hedge : edge_out (integrate s).b := Or.inl (le_of_lt hneg)
  have e1 : move_ball_to_paddles fuel s = some (reset_ball (give_score (integrate s))) := by
    unfold move_ball_to_paddles move_ball_to_edge vertical_collision
    rw [if_neg hwall]
    simp only [Option.map_some']
    unfold horizontal_collision
    rw [if_pos hedge]
  have egs : give_score (integrate s) =
      { integrate s with p2 := { s.p2 with score := s.p2.score + 1 } } := by
    unfold give_score
    rw [if_neg (not_le.mpr hneg)]
    rfl
  obtain ⟨sN, hsN⟩ : ∃ sN, sN = reset_ball (give_score (integrate s)) := ⟨_, rfl⟩
  have f1 : sN.p1 = s.p1 := by rw [hsN, egs]; rfl
  have f2 : sN.p2 = { s.p2 with score := s.p2.score + 1 } := by rw [hsN, egs]; rfl
  have f3 : sN.b = { s.b with
      x := 63
      y := 15
      v_x := ((s.start_dir * -1 : Int) : ℚ) * BALL_SPEED / 2
      v_y := ((s.start_dir * -1 : Int) : ℚ) * BALL_SPEED / 2 } := by
    rw [hsN, egs]
    simp [reset_ball, integrate, BALL_STARTX, BALL_STARTY]
  have f4 : sN.start_dir = s.start_dir * -1 := by rw [hsN, egs]; rfl
  have f5 : sN.t_mod = 1 := by rw [hsN]; rfl
  rw [← hsN] at e1
  have hq1 : in_object sN.b sN.p1 = 0 := by
    apply in_object_eq_zero_of_left
    intro i hi0 _
    rw [f1, f3]
    simp only [hp1x, hp1w, PADDLE_WIDTH]
    have : (0 : ℚ) ≤ (i : ℚ) := by exact_mod_cast hi0
    push_cast
    linarith
  have hq2 : in_object sN.b sN.p2 = 0 := by
    apply in_object_eq_zero_of_right
    intro i _ hi1
    rw [f3] at hi1
    rw [f2, f3]
    simp only [hp2x, hbw, BALL_SIZE] at hi1 ⊢
    have : (i : ℚ) ≤ 1 := by
      have : i ≤ 1 := by omega
      exact_mod_cast this
    linarith
  have e63 : to_int (63 : ℚ) = 63 := by decide!
  have e15 : to_int (15 : ℚ) = 15 := by decide!
  have hpage : ∀ i : Nat, (i : Int) < sN.b.height →
      to_int (fdiv (fadd sN.b.y ((i : Int) : ℚ)) 8) = (to_int sN.b.y + (i : Int)) / 8 := by
    rw [f3]
    simp only [hbh, BALL_SIZE]
    intro i hi
    have hi2 : i = 0 ∨ i = 1 := by omega
    rcases hi2 with h | h <;> subst h <;> decide!
  obtain ⟨d, hd, _⟩ := rasterize_rectangle sN.b
    (by rw [f3]; norm_num) (by rw [f3]; norm_num)
    (by rw [f3]; simp [hbw, BALL_SIZE]) (by rw [f3]; simp [hbh, BALL_SIZE])
    (by rw [f3]; simp only [hbw, BALL_SIZE, e63]; decide)
    (by rw [f3]; simp only [hbh, BALL_SIZE, e15]; decide) hpage
  refine ⟨draw_screen (sN.set obj_id.B { sN.b with data := d }), ?_, ?_⟩
  · unfold move_ball move_ball_physics
    rw [e1, Option.some_bind]
    unfold paddle_collision
    rw [if_neg (by rw [hq1]; decide), if_neg (by rw [hq2]; decide), Option.some_bind]
    unfold draw_object
    simp only [state.get]
    rw [hd]
    rfl
  · simp only [draw_screen, state.set, f1, f2, f3, f4, f5, BALL_SPEED]
    refine ⟨trivial, trivial, trivial, trivial, trivial, by ring, trivial, trivial, ?_⟩
    rintro (h | h) <;> rw [h] <;> norm_num [abs_of_pos, abs_of_neg]

/-- The state `ball_on_left_edge` meets the hypotheses of the left edge-out scenario. -/
theorem move_ball_left_edge_out_witness :
    ∃ s1, move_ball 4 ball_on_left_edge = some s1 ∧
      s1.p2.score = ball_on_left_edge.p2.score + 1 ∧ s1.p1.score = ball_on_left_edge.p1.score ∧
      s1.b.x = 63 ∧ s1.b.y = 15 ∧ s1.t_mod = 1 ∧ s1.start_dir = -ball_on_left_edge.start_dir ∧
      s1.b.v_x = (s1.start_dir : ℚ) * BALL_SPEED / 2 ∧
      s1.b.v_y = (s1.start_dir : ℚ) * BALL_SPEED / 2 ∧
      (ball_on_left_edge.start_dir = 1 ∨ ball_on_left_edge.start_dir = -1 →
        |s1.b.v_x| = 1 / 8 ∧ |s1.b.v_y| = 1 / 8) :=
  move_ball_left_edge_out 4 ball_on_left_edge (by decide!) (by decide!) (by decide!)
    (by decide!) (by decide!) (by decide!) (by decide!) (by decide!) (by decide!)

/-! ### Paddle bounce -/

/-- C8 at its failing input: the ball overlaps paddle 1 with its centre level
with the centre of the paddle, and `bounce_paddle` leaves
`v_y = -(1/8 + 15/2 * BASE_MODIFIER)`, about -0.155, not the negation `-1/8`
of the previous value. -/
theorem bounce_paddle_centre_hit_adds_modifier :
    in_object ball_at_paddle_centre game_start.p1 = 1 ∧
      ball_at_paddle_centre.y + ((Int.tdiv ball_at_paddle_centre.height 2 : Int) : ℚ)
        = game_start.p1.y + (game_start.p1.height : ℚ) / 2 ∧
      (bounce_paddle 4 ball_at_paddle_centre game_start.p1).map (fun b1 => b1.v_y)
        = some (-(1 / 8 + 15 / 2 * BASE_MODIFIER)) ∧
      -ball_at_paddle_centre.v_y = -1 / 8 ∧
      -(1 / 8 + 15 / 2 * BASE_MODIFIER) < -31 / 200 := by
  decide!

/-- C9 at its failing input: after the integration the bottom edge of the ball
is within the tolerance below the top edge of paddle 1 and the ball is within
the columns of the paddle, but `in_object` is 0, so `move_ball` does not call
`bounce_paddle`: it returns with `v_y = 1/8`, downward and unchanged, and
without the factor 1.02. -/
theorem move_ball_top_graze_not_bounced :
    (move_ball_to_paddles 4 ball_grazing_paddle).map
        (fun s1 => decide (s1.p1.y < s1.b.y + (s1.b.height : ℚ) ∧
          s1.b.y + (s1.b.height : ℚ) < s1.p1.y + 2 / 10 ∧
          s1.p1.x ≤ s1.b.x ∧ s1.b.x ≤ s1.p1.x + (s1.p1.width : ℚ))) = some true ∧
      (move_ball_to_paddles 4 ball_grazing_paddle).map (fun s1 => in_object s1.b s1.p1)
        = some 0 ∧
      ball_grazing_paddle.b.v_y = 1 / 8 ∧
      (move_ball 4 ball_grazing_paddle).map (fun s1 => s1.b.v_y) = some (1 / 8) := by
  decide!

theorem in_object_eq_zero_of_above (o1 o2 : object)
    (h : ∀ j : Int, 0 ≤ j → j < o1.height → o1.y + (j : ℚ) < o2.y) :
    in_object o1 o2 = 0 := by
  rw [(in_object_cell_test o1 o2).2]
  rintro ⟨i, j, _, _, hj0, hj1, _, _, h3, _⟩
  exact absurd h3 (not_le.mpr (h j hj0 hj1))

theorem bounce_velocity_position (b p : object) :
    (bounce_velocity b p).x = b.x ∧ (bounce_velocity b p).y = b.y ∧
      (bounce_velocity b p).width = b.width ∧ (bounce_velocity b p).height = b.height :=
  ⟨rfl, rfl, rfl, rfl⟩

theorem bounce_mod_nonneg (b p : object) : 0 ≤ bounce_mod b p := by
  unfold bounce_mod BASE_MODIFIER
  have := abs_nonneg ((p.y + (p.height : ℚ)) / 2 - (b.y + ((Int.tdiv b.height 2 : Int) : ℚ)))
  positivity

/-! ### The ball handed to the rasteriser -/

/-- C10 at its failing input: ball and paddles are inside the display before
`move_ball`; the ball runs into the front of paddle 2, `bounce_paddle` leaves
`v_x` pointing into the paddle, and the un-stick loop walks the ball down
until it has passed the bottom of the paddle. The ball that `move_ball` passes
to `draw_object` is then below row 31, outside the display, and `draw_object`
has no defined result (its second row would be stored past the buffer). -/
theorem move_ball_bounce_leaves_display :
    in_field ball_into_low_paddle.b ∧ in_field ball_into_low_paddle.p1 ∧
      in_field ball_into_low_paddle.p2 ∧
      (move_ball_to_paddles 12 ball_into_low_paddle).map (fun s1 => in_object s1.b s1.p2)
        = some 1 ∧
      (move_ball_physics 12 ball_into_low_paddle).map
        (fun s1 => decide (in_field s1.b)) = some false ∧
      (move_ball_physics 12 ball_into_low_paddle).map
        (fun s1 => decide (31 < s1.b.y ∧ 0 < s1.b.v_x)) = some true ∧
      (move_ball 12 ball_into_low_paddle).isSome = false := by
  decide!

/-! ### Termination of the wall correction loop -/

theorem wall_walk_of_iterate : ∀ (n : Nat) (b : object), ¬ wall_hit (walk^[n] b) →
    ∀ fuel, n ≤ fuel → ∃ b1, wall_walk fuel b = some b1 ∧ ¬ wall_hit b1 := by
  intro n
  induction n with
  | zero =>
    intro b h fuel _
    simp only [Function.iterate_zero, id_eq] at h
    cases fuel with
    | zero => exact ⟨b, by simp only [wall_walk]; rw [if_neg h], h⟩
    | succ f => exact ⟨b, by simp only [wall_walk]; rw [if_neg h], h⟩
  | succ n ih =>
    intro b h fuel hf
    cases fuel with
    | zero => omega
    | succ f =>
      by_cases hb : wall_hit b
      · simp only [wall_walk]
        rw [if_pos hb]
        rw [Function.iterate_succ_apply] at h
        exact ih (walk b) h f (by omega)
      · exact ⟨b, by simp only [wall_walk]; rw [if_neg hb], hb⟩

theorem wall_walk_none_of_all_hit : ∀ (fuel : Nat) (b : object),
    (∀ n, wall_hit (walk^[n] b)) → wall_walk fuel b = none := by
  intro fuel
  induction fuel with
  | zero =>
    intro b h
    have h0 : wall_hit b := h 0
    simp only [wall_walk]
    rw [if_pos h0]
  | succ f ih =>
    intro b h
    have h0 : wall_hit b := h 0
    simp only [wall_walk]
    rw [if_pos h0]
    apply ih
    intro n
    have := h (n + 1)
    rwa [Function.iterate_succ_apply] at this

/-- A loop whose condition `c` holds along all iterates never ends; a loop with
an invariant `I` and a measure `m` that falls by at least `d > 0` with every
iteration, and whose condition fails once `m` is negative, ends. -/
theorem iterate_exits {α : Type} (c : α → Prop) (f : α → α) (I : α → Prop) (m : α → ℚ) (d : ℚ)
    (hd : 0 < d) (hstep : ∀ a, I a → c a → I (f a) ∧ m (f a) ≤ m a - d)
    (hout : ∀ a, I a → m a < 0 → ¬ c a) (a : α) (ha : I a) : ∃ n, ¬ c (f^[n] a) := by
  by_contra hall
  push_neg at hall
  have key : ∀ n : Nat, I (f^[n] a) ∧ m (f^[n] a) ≤ m a - (n : ℚ) * d := by
    intro n
    induction n with
    | zero => simpa using ha
    | succ k ih =>
      rw [Function.iterate_succ_apply']
      obtain ⟨h1, h2⟩ := hstep _ ih.1 (hall k)
      refine ⟨h1, ?_⟩
      push_cast
      linarith [ih.2]
  obtain ⟨n, hn⟩ := exists_nat_gt (m a / d)
  rw [div_lt_iff₀ hd] at hn
  exact hout _ (key n).1 (by linarith [(key n).2]) (hall n)

theorem iterate_invariant {α : Type} (f : α → α) (J : α → Prop) (hJ : ∀ a, J a → J (f a))
    (a : α) (ha : J a) : ∀ n, J (f^[n] a) := by
  intro n
  induction n with
  | zero => simpa using ha
  | succ k ih =>
    rw [Function.iterate_succ_apply']
    exact hJ _ ih

theorem walk_reaches_field_from_top (b : object) (hh : 0 ≤ b.height) (hy : b.y ≤ 0)
    (hy2 : -128 ≤ b.y) (hv : walk_step_min ≤ b.v_y) (hfl : fl b.v_y = b.v_y)
    (hs : b.v_y < ((31 - b.height : Int) : ℚ)) :
    ∃ n, ¬ wall_hit (walk^[n] b) := by
  have hmin : (0 : ℚ) < walk_step_min ∧ walk_step_min = 1 / 65536 := by decide!
  have hhq : (0 : ℚ) ≤ (b.height : ℚ) := by exact_mod_cast hh
  push_cast at hs
  apply iterate_exits wall_hit walk
    (fun a => a.v_y = b.v_y ∧ a.height = b.height ∧ -128 ≤ a.y ∧ a.y ≤ b.v_y)
    (fun a => -a.y) (b.v_y / 2) (by linarith [hmin.1])
  · rintro a ⟨h1, h2, h3, h4⟩ hc
    have hay : a.y ≤ 0 := by
      rcases hc with hc | hc
      · exact hc
      · rw [h2] at hc
        push_cast at hc
        linarith
    have herr := fadd_error (a := a.y) (b := a.v_y) (by
      rw [abs_lt, h1]
      constructor <;> linarith [hmin.1])
    rw [abs_le, h1] at herr
    have hup : fadd a.y b.v_y ≤ b.v_y := by
      have := fl_mono (show a.y + b.v_y ≤ b.v_y by linarith)
      rwa [hfl] at this
    simp only [walk, h1, h2]
    refine ⟨⟨trivial, trivial, ?_, hup⟩, ?_⟩ <;> linarith [herr.1, herr.2, hmin.1]
  · rintro a ⟨_, h2, _, h4⟩ hm
    unfold wall_hit
    rw [h2]
    push_cast
    push_neg
    constructor <;> linarith
  · exact ⟨rfl, rfl, hy2, by linarith [hmin.1]⟩

theorem walk_reaches_field_from_bottom (b : object) (hh : 0 ≤ b.height)
    (hy : b.y ≥ ((31 - b.height : Int) : ℚ)) (hy2 : b.y ≤ 128) (hv : b.v_y ≤ -walk_step_min)
    (hfl : fl b.v_y = b.v_y) (hs : -b.v_y < ((31 - b.height : Int) : ℚ)) :
    ∃ n, ¬ wall_hit (walk^[n] b) := by
  have hmin : (0 : ℚ) < walk_step_min ∧ walk_step_min = 1 / 65536 := by decide!
  have hhq : (0 : ℚ) ≤ (b.height : ℚ) := by exact_mod_cast hh
  obtain ⟨L, hL⟩ : ∃ L, L = fl (((31 - b.height : Int) : ℚ) + b.v_y) := ⟨_, rfl⟩
  have hlow : 0 < L := by
    obtain ⟨k, hk⟩ := fl_grid b.v_y
    rw [hfl] at hk
    have h149 : ((2 ^ 149 : Int) : ℚ) * 2 ^ (-149 : Int) = 1 := by
      rw [zpow_neg]
      norm_num
    rw [hL]
    apply fl_pos_of_grid (by linarith) ((31 - b.height) * 2 ^ 149 + k)
    rw [Int.cast_add, Int.cast_mul, add_mul, mul_assoc, h149, mul_one, ← hk]
  have hlow2 : L ≤ ((31 - b.height : Int) : ℚ) := by
    have herr := fl_error (x := ((31 - b.height : Int) : ℚ) + b.v_y) (by
      rw [abs_lt]
      push_cast
      push_cast at hs
      constructor <;> linarith [hmin.1])
    rw [abs_le, ← hL] at herr
    linarith [herr.2, hmin.1]
  have hmono : ∀ y : ℚ, ((31 - b.height : Int) : ℚ) ≤ y → L ≤ fadd y b.v_y := by
    intro y hy
    rw [hL]
    exact fl_mono (by linarith)
  push_cast at hs hy hlow2 hmono
  apply iterate_exits wall_hit walk
    (fun a => a.v_y = b.v_y ∧ a.height = b.height ∧ a.y ≤ 128 ∧ L ≤ a.y)
    (fun a => a.y - ((31 - b.height : Int) : ℚ)) (-b.v_y / 2) (by linarith [hmin.1])
  · rintro a ⟨h1, h2, h3, h4⟩ hc
    have hay : a.y ≥ ((31 - b.height : Int) : ℚ) := by
      rcases hc with hc | hc
      · linarith
      · rw [h2] at hc
        exact hc
    push_cast at hay
    have herr := fadd_error (a := a.y) (b := a.v_y) (by
      rw [abs_lt, h1]
      constructor <;> linarith [hmin.1])
    rw [abs_le, h1] at herr
    simp only [walk, h1, h2]
    push_cast
    refine ⟨⟨trivial, trivial, ?_, hmono a.y hay⟩, ?_⟩ <;> linarith [herr.1, herr.2, hmin.1]
  · rintro a ⟨_, h2, _, h4⟩ hm
    push_cast at hm
    unfold wall_hit
    rw [h2]
    push_cast
    push_neg
    constructor <;> linarith
  · exact ⟨rfl, rfl, hy2, by linarith⟩

theorem wall_reflect_y (b : object) : (wall_reflect b).y = b.y := by
  unfold wall_reflect
  split <;> rfl

theorem wall_reflect_values (b : object) :
    (b.v_y < 0 → (wall_reflect b).v_y = |b.v_x|) ∧
      (0 < b.v_y → (wall_reflect b).v_y = -|b.v_x|) ∧
      |(wall_reflect b).v_x| = |b.v_y| := by
  unfold wall_reflect
  refine ⟨?_, ?_, ?_⟩
  · intro h
    split
    · rename_i hc
      rcases hc with hc | hc
      · linarith [hc.2]
      · simp only [abs_of_neg hc.1]; ring
    · rename_i hc
      push_neg at hc
      have hx : 0 ≤ b.v_x := by
        by_contra hneg
        exact absurd h (not_lt.mpr (hc.2 (not_le.mp hneg)))
      simp only [abs_of_nonneg hx]
  · intro h
    split
    · rename_i hc
      rcases hc with hc | hc
      · simp only [abs_of_pos hc.1]; ring
      · linarith [hc.2]
    · rename_i hc
      push_neg at hc
      have hx : b.v_x ≤ 0 := by
        by_contra hpos
        exact absurd h (not_lt.mpr (hc.1 (not_le.mp hpos)))
      simp only [abs_of_nonpos hx]; ring
  · split
    · rfl
    · simp only [mul_neg, mul_one, abs_neg]

theorem wall_branch_terminates (b : object) (hhit : wall_hit b) (hh : 0 ≤ b.height)
    (hy : -128 ≤ b.y ∧ b.y ≤ 128)
    (htop : b.y ≤ 0 → 0 < (wall_reflect b).v_y)
    (hbot : b.y ≥ ((31 - b.height : Int) : ℚ) → (wall_reflect b).v_y < 0)
    (hfl : fl (wall_reflect b).v_y = (wall_reflect b).v_y)
    (hmin : walk_step_min ≤ |(wall_reflect b).v_y|)
    (hmax : |(wall_reflect b).v_y| < ((31 - b.height : Int) : ℚ)) :
    ∃ n, ∀ fuel, n ≤ fuel → ∃ b1, wall_branch fuel b = some b1 ∧
      0 < b1.y ∧ b1.y < ((31 - b1.height : Int) : ℚ) := by
  have hyr := wall_reflect_y b
  have hhr := (wall_reflect_size b).1
  have hex : ∃ n, ¬ wall_hit (walk^[n] (wall_reflect b)) := by
    rcases hhit with h | h
    · have hv := htop h
      rw [abs_of_pos hv] at hmin hmax
      apply walk_reaches_field_from_top
      · rw [hhr]; exact hh
      · rw [hyr]; exact h
      · rw [hyr]; exact hy.1
      · exact hmin
      · exact hfl
      · rw [hhr]; exact hmax
    · have hv := hbot h
      rw [abs_of_neg hv] at hmin hmax
      apply walk_reaches_field_from_bottom
      · rw [hhr]; exact hh
      · rw [hyr, hhr]; exact h
      · rw [hyr]; exact hy.2
      · linarith
      · exact hfl
      · rw [hhr]; exact hmax
  obtain ⟨n, hn⟩ := hex
  refine ⟨n, ?_⟩
  intro fuel hf
  obtain ⟨b1, hb1, hnh⟩ := wall_walk_of_iterate n _ hn fuel hf
  refine ⟨b1, hb1, ?_⟩
  unfold wall_hit at hnh
  push_neg at hnh
  exact hnh

theorem wall_branch_none_of_invariant (b : object) (J : object → Prop)
    (hJ : ∀ a, J a → J (walk a)) (hc : ∀ a, J a → wall_hit a) (hb : J (wall_reflect b)) :
    ∀ fuel, wall_branch fuel b = none := by
  intro fuel
  unfold wall_branch
  apply wall_walk_none_of_all_hit
  intro n
  exact hc _ (iterate_invariant walk J hJ _ hb n)

/-- C11, as stated, fails in three ways, each with a nonzero walked vertical
velocity and a loop that never ends. A ball above the top wall that already
moves down is turned upward by the reflection. A ball that crosses the top
wall with a horizontal speed of 30 is walked in steps of 30 rows over the
whole field. A ball that crosses the top wall with the horizontal speed
`2 ^ (-30)` is walked in steps that the float addition absorbs: `y` stays at
`-1/16`. -/
theorem wall_loop_diverges :
    (wall_hit (integrate ball_returning_from_top).b ∧
      (wall_reflect (integrate ball_returning_from_top).b).v_y ≠ 0 ∧
      ∀ fuel, wall_branch fuel (integrate ball_returning_from_top).b = none) ∧
    (wall_hit (integrate ball_too_fast).b ∧
      (wall_reflect (integrate ball_too_fast).b).v_y ≠ 0 ∧
      ∀ fuel, wall_branch fuel (integrate ball_too_fast).b = none) ∧
    (wall_hit (integrate ball_creeping_right).b ∧
      (wall_reflect (integrate ball_creeping_right).b).v_y ≠ 0 ∧
      fadd (wall_reflect (integrate ball_creeping_right).b).y
          (wall_reflect (integrate ball_creeping_right).b).v_y
        = (wall_reflect (integrate ball_creeping_right).b).y ∧
      ∀ fuel, wall_branch fuel (integrate ball_creeping_right).b = none) := by
  have f0 : fl 0 = 0 := by decide!
  have f29 : fl 29 = 29 := by decide!
  refine ⟨⟨by decide!, by decide!, ?_⟩, ⟨by decide!, by decide!, ?_⟩,
    ⟨by decide!, by decide!, by decide!, ?_⟩⟩
  · apply wall_branch_none_of_invariant _ (fun a => a.y ≤ 0 ∧ a.v_y = -1 / 8)
    · rintro a ⟨h1, h2⟩
      refine ⟨?_, h2⟩
      simp only [walk, fadd, h2]
      exact fl_le_of_le (by linarith) f0
    · rintro a ⟨h1, _⟩
      exact Or.inl h1
    · decide!
  · apply wall_branch_none_of_invariant _
      (fun a => (a.y = -1 / 16 ∨ 29 ≤ a.y) ∧ a.v_y = 30 ∧ a.height = 2)
    · rintro a ⟨h1, h2, h3⟩
      refine ⟨Or.inr ?_, h2, h3⟩
      simp only [walk, fadd, h2]
      apply le_fl_of_le _ f29
      rcases h1 with h1 | h1
      · rw [h1]; norm_num
      · linarith
    · rintro a ⟨h1, _, h3⟩
      rcases h1 with h1 | h1
      · left; rw [h1]; norm_num
      · right; rw [h3]; norm_num; exact h1
    · decide!
  · apply wall_branch_none_of_invariant _
      (fun a => a.y = -1 / 16 ∧ a.v_y = 1 / 1073741824)
    · rintro a ⟨h1, h2⟩
      refine ⟨?_, h2⟩
      simp only [walk, h1, h2]
      decide!
    · rintro a ⟨h1, _⟩
      left; rw [h1]; norm_num
    · decide!

/-- C11, amended: when the ball enters the vertical-wall branch at most 128 rows
from the origin, with a height of at least 0, and its vertical velocity after
the reflection is a binary32 value that points away from the wall it touches
(down at `y <= 0`, up at `y >= 31 - height`) with a magnitude of at least
`2 ^ (-16)` and below `31 - height`, the loop exits after finitely many walk
steps with `0 < y < 31 - height`. -/
theorem wall_loop_terminates (s : state) (hhit : wall_hit (integrate s).b)
    (hh : 0 ≤ (integrate s).b.height)
    (hy : -128 ≤ (integrate s).b.y ∧ (integrate s).b.y ≤ 128)
    (htop : (integrate s).b.y ≤ 0 → 0 < (wall_reflect (integrate s).b).v_y)
    (hbot : (integrate s).b.y ≥ ((31 - (integrate s).b.height : Int) : ℚ) →
      (wall_reflect (integrate s).b).v_y < 0)
    (hfl : fl (wall_reflect (integrate s).b).v_y = (wall_reflect (integrate s).b).v_y)
    (hmin : walk_step_min ≤ |(wall_reflect (integrate s).b).v_y|)
    (hmax : |(wall_reflect (integrate s).b).v_y| < ((31 - (integrate s).b.height : Int) : ℚ)) :
    ∃ n, ∀ fuel, n ≤ fuel → ∃ b1, wall_branch fuel (integrate s).b = some b1 ∧
      0 < b1.y ∧ b1.y < ((31 - b1.height : Int) : ℚ) :=
  wall_branch_terminates (integrate s).b hhit hh hy htop hbot hfl hmin hmax

/-- The ball of `ball_near_top` is reflected downward at the top wall with a
step of an eighth of a row. -/
theorem wall_loop_terminates_witness :
    ∃ n, ∀ fuel, n ≤ fuel → ∃ b1, wall_branch fuel (integrate ball_near_top).b = some b1 ∧
      0 < b1.y ∧ b1.y < ((31 - b1.height : Int) : ℚ) :=
  wall_loop_terminates ball_near_top (by decide!) (by decide!) (by decide!) (fun _ => by decide!)
    (fun h => absurd h (by decide!)) (by decide!) (by decide!) (by decide!)

/-- C20, as stated, fails: the ball of `ball_creeping_left` enters the branch
moving up into the top wall with the binary32 value `v_x = -2 ^ (-40)`, nonzero
and below `31 - height` in magnitude; the reflection gives `v_y = 2 ^ (-40)`,
the float addition absorbs that step at `y = -1/16`, and the loop never ends. -/
theorem wall_reflection_absorbed :
    (integrate ball_creeping_left).b.y ≤ 0 ∧ (integrate ball_creeping_left).b.v_y < 0 ∧
      (integrate ball_creeping_left).b.v_x ≠ 0 ∧
      fl (integrate ball_creeping_left).b.v_x = (integrate ball_creeping_left).b.v_x ∧
      |(integrate ball_creeping_left).b.v_x| <
        ((31 - (integrate ball_creeping_left).b.height : Int) : ℚ) ∧
      (wall_reflect (integrate ball_creeping_left).b).v_y = 1 / 1099511627776 ∧
      fadd (wall_reflect (integrate ball_creeping_left).b).y
          (wall_reflect (integrate ball_creeping_left).b).v_y
        = (wall_reflect (integrate ball_creeping_left).b).y ∧
      ∀ fuel, vertical_collision fuel (integrate ball_creeping_left).b = none := by
  have hfl : fl (integrate ball_creeping_left).b.v_x = (integrate ball_creeping_left).b.v_x := by
    have hv : (integrate ball_creeping_left).b.v_x = -(2 : ℚ) ^ (-40 : Int) := by
      show (-1 / 1099511627776 : ℚ) = _
      rw [zpow_neg]
      norm_num
    rw [hv, fl_neg, fl_two_zpow _ (by norm_num)]
  refine ⟨by decide!, by decide!, by decide!, hfl, by decide!, by decide!, by decide!, ?_⟩
  intro fuel
  unfold vertical_collision
  rw [if_pos (by decide!)]
  apply wall_branch_none_of_invariant _
    (fun a => a.y = -1 / 16 ∧ a.v_y = 1 / 1099511627776)
  · rintro a ⟨h1, h2⟩
    refine ⟨?_, h2⟩
    simp only [walk, h1, h2]
    decide!
  · rintro a ⟨h1, _⟩
    left; rw [h1]; norm_num
  · decide!

/-- C20, amended: a ball that enters the vertical-wall branch moving into the
wall it touches, at most 128 rows from the origin and with a height of at least
0, whose `v_x` is a binary32 value with `2 ^ (-16) <= |v_x| < 31 - height`,
gets `v_y = |v_x|` at the top wall and `v_y = -|v_x|` at the bottom wall, a
`v_x` of magnitude `|v_y|`, and the walk-forward loop ends with
`0 < y < 31 - height`. -/
theorem wall_reflection_succeeds (s : state)
    (hinto : ((integrate s).b.y ≤ 0 ∧ (integrate s).b.v_y < 0) ∨
      ((integrate s).b.y ≥ ((31 - (integrate s).b.height : Int) : ℚ) ∧ 0 < (integrate s).b.v_y))
    (hh : 0 ≤ (integrate s).b.height)
    (hy : -128 ≤ (integrate s).b.y ∧ (integrate s).b.y ≤ 128)
    (hfl : fl (integrate s).b.v_x = (integrate s).b.v_x)
    (hmin : walk_step_min ≤ |(integrate s).b.v_x|)
    (hmax : |(integrate s).b.v_x| < ((31 - (integrate s).b.height : Int) : ℚ)) :
    ((integrate s).b.y ≤ 0 ∧ (integrate s).b.v_y < 0 →
        (wall_reflect (integrate s).b).v_y = |(integrate s).b.v_x|) ∧
      ((integrate s).b.y ≥ ((31 - (integrate s).b.height : Int) : ℚ) ∧
          0 < (integrate s).b.v_y →
        (wall_reflect (integrate s).b).v_y = -|(integrate s).b.v_x|) ∧
      |(wall_reflect (integrate s).b).v_x| = |(integrate s).b.v_y| ∧
      ∃ n, ∀ fuel, n ≤ fuel → ∃ b1, vertical_collision fuel (integrate s).b = some b1 ∧
        0 < b1.y ∧ b1.y < ((31 - b1.height : Int) : ℚ) := by
  obtain ⟨r1, r2, r3⟩ := wall_reflect_values (integrate s).b
  have hm0 : (0 : ℚ) < walk_step_min := by decide!
  have hpos : 0 < |(integrate s).b.v_x| := lt_of_lt_of_le hm0 hmin
  have hspan : (0 : ℚ) < ((31 - (integrate s).b.height : Int) : ℚ) := lt_trans hpos hmax
  have hfa : fl |(integrate s).b.v_x| = |(integrate s).b.v_x| := fl_abs hfl
  have hfn : fl (-|(integrate s).b.v_x|) = -|(integrate s).b.v_x| := by rw [fl_neg, hfa]
  have hhit : wall_hit (integrate s).b := by
    rcases hinto with h | h
    · exact Or.inl h.1
    · exact Or.inr h.1
  refine ⟨fun h => r1 h.2, fun h => r2 h.2, r3, ?_⟩
  have hterm : ∃ n, ∀ fuel, n ≤ fuel → ∃ b1, wall_branch fuel (integrate s).b = some b1 ∧
      0 < b1.y ∧ b1.y < ((31 - b1.height : Int) : ℚ) := by
    rcases hinto with h | h
    · apply wall_branch_terminates _ hhit hh hy
      · intro _; rw [r1 h.2]; exact hpos
      · intro hb
        exfalso
        push_cast at hb hspan
        linarith [h.1]
      · rw [r1 h.2]; exact hfa
      · rw [r1 h.2, abs_abs]; exact hmin
      · rw [r1 h.2, abs_abs]; exact hmax
    · apply wall_branch_terminates _ hhit hh hy
      · intro ht
        exfalso
        have := h.1
        push_cast at this hspan
        linarith
      · intro _; rw [r2 h.2]; linarith
      · rw [r2 h.2]; exact hfn
      · rw [r2 h.2, abs_neg, abs_abs]; exact hmin
      · rw [r2 h.2, abs_neg, abs_abs]; exact hmax
  obtain ⟨n, hn⟩ := hterm
  refine ⟨n, fun fuel hf => ?_⟩
  obtain ⟨b1, hb1, hb2⟩ := hn fuel hf
  refine ⟨b1, ?_, hb2⟩
  unfold vertical_collision
  rw [if_pos hhit, hb1]

/-- The ball of `ball_near_top` moves up into the top wall at an eighth of a row
per step. -/
theorem wall_reflection_succeeds_witness :
    ((integrate ball_near_top).b.y ≤ 0 ∧ (integrate ball_near_top).b.v_y < 0 →
        (wall_reflect (integrate ball_near_top).b).v_y = |(integrate ball_near_top).b.v_x|) ∧
      ((integrate ball_near_top).b.y ≥ ((31 - (integrate ball_near_top).b.height : Int) : ℚ) ∧
          0 < (integrate ball_near_top).b.v_y →
        (wall_reflect (integrate ball_near_top).b).v_y = -|(integrate ball_near_top).b.v_x|) ∧
      |(wall_reflect (integrate ball_near_top).b).v_x| = |(integrate ball_near_top).b.v_y| ∧
      ∃ n, ∀ fuel, n ≤ fuel →
        ∃ b1, vertical_collision fuel (integrate ball_near_top).b = some b1 ∧
          0 < b1.y ∧ b1.y < ((31 - b1.height : Int) : ℚ) :=
  wall_reflection_succeeds ball_near_top (Or.inl (by decide!)) (by decide!) (by decide!)
    (by decide!) (by decide!) (by decide!)

/-! ### Termination of the un-stick loop -/

theorem in_object_eq_zero_of_below (o1 o2 : object)
    (h : ∀ j : Int, 0 ≤ j → j < o1.height → o2.y + (o2.height : ℚ) < o1.y + (j : ℚ)) :
    in_object o1 o2 = 0 := by
  rw [(in_object_cell_test o1 o2).2]
  rintro ⟨i, j, _, _, hj0, hj1, _, _, _, h4⟩
  exact absurd h4 (not_le.mpr (h j hj0 hj1))

theorem unstick_of_iterate (p : object) : ∀ (n : Nat) (b : object),
    in_object (walk^[n] b) p = 0 →
    ∀ fuel, n ≤ fuel → ∃ b1, unstick p fuel b = some b1 ∧ in_object b1 p = 0 := by
  intro n
  induction n with
  | zero =>
    intro b h fuel _
    simp only [Function.iterate_zero, id_eq] at h
    have hn : ¬ in_object b p ≠ 0 := fun hc => hc h
    cases fuel with
    | zero => exact ⟨b, by simp only [unstick]; rw [if_neg hn], h⟩
    | succ f => exact ⟨b, by simp only [unstick]; rw [if_neg hn], h⟩
  | succ n ih =>
    intro b h fuel hf
    cases fuel with
    | zero => omega
    | succ f =>
      by_cases hb : in_object b p ≠ 0
      · simp only [unstick]
        rw [if_pos hb]
        rw [Function.iterate_succ_apply] at h
        exact ih (walk b) h f (by omega)
      · exact ⟨b, by simp only [unstick]; rw [if_neg hb], not_not.mp hb⟩


theorem unstick_none_of_fixed (p : object) (b : object) (hfix : walk b = b)
    (hin : in_object b p ≠ 0) : ∀ fuel, unstick p fuel b = none := by
  intro fuel
  induction fuel with
  | zero => simp only [unstick]; rw [if_pos hin]
  | succ f ih => simp only [unstick]; rw [if_pos hin, hfix]; exact ih

theorem cell_inside_of_in_object {a p : object} (h : in_object a p ≠ 0) : cell_inside a p := by
  by_contra hc
  exact h ((in_object_cell_test a p).2.mpr hc)

theorem fadd_step_up {x v : ℚ} (hx : -128 ≤ x ∧ x ≤ 128) (hv : walk_step_min ≤ v) :
    x + min v 64 / 2 ≤ fadd x v := by
  have hmin : (0 : ℚ) < walk_step_min ∧ walk_step_min = 1 / 65536 := by decide!
  have h1 : walk_step_min ≤ min v 64 := le_min hv (by rw [hmin.2]; norm_num)
  have h2 : min v 64 ≤ 64 := min_le_right _ _
  have h3 : min v 64 ≤ v := min_le_left _ _
  have herr := fl_error (x := x + min v 64) (by
    rw [abs_lt]
    constructor <;> linarith [hmin.1, hx.1, hx.2])
  rw [abs_le] at herr
  have hmono : fl (x + min v 64) ≤ fadd x v := fl_mono (by linarith)
  linarith [herr.1, hmin.1]

theorem fadd_step_down {x v : ℚ} (hx : -128 ≤ x ∧ x ≤ 128) (hv : v ≤ -walk_step_min) :
    fadd x v ≤ x - min (-v) 64 / 2 := by
  have hmin : (0 : ℚ) < walk_step_min ∧ walk_step_min = 1 / 65536 := by decide!
  have h1 : walk_step_min ≤ min (-v) 64 := le_min (by linarith) (by rw [hmin.2]; norm_num)
  have h2 : min (-v) 64 ≤ 64 := min_le_right _ _
  have h3 : min (-v) 64 ≤ -v := min_le_left _ _
  have herr := fl_error (x := x - min (-v) 64) (by
    rw [abs_lt]
    constructor <;> linarith [hmin.1, hx.1, hx.2])
  rw [abs_le] at herr
  have hmono : fadd x v ≤ fl (x - min (-v) 64) := fl_mono (by linarith)
  linarith [herr.2, hmin.1]

theorem walk_leaves_object (b p : object) (hp : in_field p) (hb : near_display b)
    (hv : walk_step_min ≤ |b.v_x| ∨ walk_step_min ≤ |b.v_y|) :
    ∃ n, in_object (walk^[n] b) p = 0 := by
  have hmin : (0 : ℚ) < walk_step_min ∧ walk_step_min = 1 / 65536 := by decide!
  have hstep : ∀ v : ℚ, walk_step_min ≤ v → 0 < min v 64 / 2 := by
    intro v hv
    have : walk_step_min ≤ min v 64 := le_min hv (by rw [hmin.2]; norm_num)
    linarith [hmin.1]
  obtain ⟨hp1, hp2, hp3, hp4⟩ := hp
  obtain ⟨hb1, hb2, hb3, hb4, hb5, hb6⟩ := hb
  have hb5q : (b.width : ℚ) ≤ 128 := by exact_mod_cast hb5
  have hb6q : (b.height : ℚ) ≤ 128 := by exact_mod_cast hb6
  have hex : ∃ n, ¬ (in_object (walk^[n] b) p ≠ 0) := by
    rcases hv with h1 | h1
    · rcases le_or_lt 0 b.v_x with hs | hs
      · rw [abs_of_nonneg hs] at h1
        apply iterate_exits (fun a => in_object a p ≠ 0) walk
          (fun a => a.v_x = b.v_x ∧ -128 ≤ a.x)
          (fun a => p.x + (p.width : ℚ) - a.x) (min b.v_x 64 / 2) (hstep _ h1)
        · rintro a ⟨i1, i2⟩ hc
          obtain ⟨i, j, hi0, _, _, _, _, c2, _, _⟩ := cell_inside_of_in_object hc
          have hiq : (0 : ℚ) ≤ (i : ℚ) := by exact_mod_cast hi0
          have hup := fadd_step_up (x := a.x) (v := b.v_x) ⟨i2, by linarith⟩ h1
          simp only [walk, i1]
          refine ⟨⟨trivial, ?_⟩, ?_⟩ <;> linarith [hstep _ h1]
        · rintro a ⟨_, _⟩ hm
          simp only [ne_eq, not_not]
          apply in_object_eq_zero_of_left
          intro i hi0 _
          have hiq : (0 : ℚ) ≤ (i : ℚ) := by exact_mod_cast hi0
          linarith
        · exact ⟨rfl, hb1⟩
      · rw [abs_of_neg hs] at h1
        apply iterate_exits (fun a => in_object a p ≠ 0) walk
          (fun a => a.v_x = b.v_x ∧ a.width = b.width ∧ a.x ≤ 128)
          (fun a => a.x + (b.width : ℚ) - p.x) (min (-b.v_x) 64 / 2) (hstep _ h1)
        · rintro a ⟨i1, i2, i3⟩ hc
          obtain ⟨i, j, _, hi1, _, _, c1, _, _, _⟩ := cell_inside_of_in_object hc
          rw [i2] at hi1
          have hiq : (i : ℚ) < (b.width : ℚ) := by exact_mod_cast hi1
          have hdn := fadd_step_down (x := a.x) (v := b.v_x) ⟨by linarith, i3⟩ (by linarith)
          simp only [walk, i1, i2]
          refine ⟨⟨trivial, trivial, ?_⟩, ?_⟩ <;> linarith [hstep _ h1]
        · rintro a ⟨_, i2, _⟩ hm
          simp only [ne_eq, not_not]
          apply in_object_eq_zero_of_right
          intro i _ hi1
          rw [i2] at hi1
          have hiq : (i : ℚ) < (b.width : ℚ) := by exact_mod_cast hi1
          linarith
        · exact ⟨rfl, rfl, hb2⟩
    · rcases le_or_lt 0 b.v_y with hs | hs
      · rw [abs_of_nonneg hs] at h1
        apply iterate_exits (fun a => in_object a p ≠ 0) walk
          (fun a => a.v_y = b.v_y ∧ -128 ≤ a.y)
          (fun a => p.y + (p.height : ℚ) - a.y) (min b.v_y 64 / 2) (hstep _ h1)
        · rintro a ⟨i1, i2⟩ hc
          obtain ⟨i, j, _, _, hj0, _, _, _, _, c4⟩ := cell_inside_of_in_object hc
          have hjq : (0 : ℚ) ≤ (j : ℚ) := by exact_mod_cast hj0
          have hup := fadd_step_up (x := a.y) (v := b.v_y) ⟨i2, by linarith⟩ h1
          simp only [walk, i1]
          refine ⟨⟨trivial, ?_⟩, ?_⟩ <;> linarith [hstep _ h1]
        · rintro a ⟨_, _⟩ hm
          simp only [ne_eq, not_not]
          apply in_object_eq_zero_of_below
          intro j hj0 _
          have hjq : (0 : ℚ) ≤ (j : ℚ) := by exact_mod_cast hj0
          linarith
        · exact ⟨rfl, hb3⟩
      · rw [abs_of_neg hs] at h1
        apply iterate_exits (fun a => in_object a p ≠ 0) walk
          (fun a => a.v_y = b.v_y ∧ a.height = b.height ∧ a.y ≤ 128)
          (fun a => a.y + (b.height : ℚ) - p.y) (min (-b.v_y) 64 / 2) (hstep _ h1)
        · rintro a ⟨i1, i2, i3⟩ hc
          obtain ⟨i, j, _, _, _, hj1, _, _, c3, _⟩ := cell_inside_of_in_object hc
          rw [i2] at hj1
          have hjq : (j : ℚ) < (b.height : ℚ) := by exact_mod_cast hj1
          have hdn := fadd_step_down (x := a.y) (v := b.v_y) ⟨by linarith, i3⟩ (by linarith)
          simp only [walk, i1, i2]
          refine ⟨⟨trivial, trivial, ?_⟩, ?_⟩ <;> linarith [hstep _ h1]
        · rintro a ⟨_, i2, _⟩ hm
          simp only [ne_eq, not_not]
          apply in_object_eq_zero_of_above
          intro j _ hj1
          rw [i2] at hj1
          have hjq : (j : ℚ) < (b.height : ℚ) := by exact_mod_cast hj1
          linarith
        · exact ⟨rfl, rfl, hb4⟩
  obtain ⟨n, hn⟩ := hex
  exact ⟨n, not_not.mp hn⟩

/-- C12, as stated, fails: for the ball `ball_barely_moving` on the front of
`paddle_at_top` the velocity after the update of `bounce_paddle` is
`(-2 ^ (-23), 0)`, not `(0, 0)`, but the float addition `7 - 2 ^ (-23)` gives 7
again, the ball does not move, and the un-stick loop never ends. -/
theorem bounce_paddle_step_absorbed :
    0 ≤ ball_barely_moving.width ∧ 0 ≤ ball_barely_moving.height ∧
      0 ≤ paddle_at_top.width ∧ 0 ≤ paddle_at_top.height ∧
      (bounce_velocity ball_barely_moving paddle_at_top).v_x = -1 / 8388608 ∧
      (bounce_velocity ball_barely_moving paddle_at_top).v_x ≠ 0 ∧
      fadd 7 (-1 / 8388608) = 7 ∧
      ∀ fuel, bounce_paddle fuel ball_barely_moving paddle_at_top = none := by
  refine ⟨by decide!, by decide!, by decide!, by decide!, by decide!, by decide!, by decide!, ?_⟩
  have hx : fadd (bounce_velocity ball_barely_moving paddle_at_top).x
      (bounce_velocity ball_barely_moving paddle_at_top).v_x
      = (bounce_velocity ball_barely_moving paddle_at_top).x := by decide!
  have hy : fadd (bounce_velocity ball_barely_moving paddle_at_top).y
      (bounce_velocity ball_barely_moving paddle_at_top).v_y
      = (bounce_velocity ball_barely_moving paddle_at_top).y := by decide!
  have hfix : walk (bounce_velocity ball_barely_moving paddle_at_top)
      = bounce_velocity ball_barely_moving paddle_at_top := by
    unfold walk
    rw [hx, hy]
  exact unstick_none_of_fixed _ _ hfix (by decide!)

/-- C12, amended: for a paddle inside the display and a ball at most 128 units
from the origin and at most 128 wide and high, when a component of the
velocity that `bounce_paddle` has set has a magnitude of at least `2 ^ (-16)`,
the un-stick loop ends after finitely many walk steps and `bounce_paddle`
returns with `in_object (ball, paddle)` equal to 0. -/
theorem bounce_paddle_terminates (b p : object) (hp : in_field p) (hb : near_display b)
    (hv : walk_step_min ≤ |(bounce_velocity b p).v_x| ∨
      walk_step_min ≤ |(bounce_velocity b p).v_y|) :
    ∃ n, ∀ fuel, n ≤ fuel → ∃ b1, bounce_paddle fuel b p = some b1 ∧ in_object b1 p = 0 := by
  obtain ⟨n, hn⟩ := walk_leaves_object (bounce_velocity b p) p hp hb hv
  exact ⟨n, fun fuel hf => unstick_of_iterate p n _ hn fuel hf⟩

/-- The ball `ball_at_paddle_centre` leaves paddle 1 with a horizontal velocity
of about 0.095. -/
theorem bounce_paddle_terminates_witness :
    ∃ n, ∀ fuel, n ≤ fuel →
      ∃ b1, bounce_paddle fuel ball_at_paddle_centre game_start.p1 = some b1 ∧
        in_object b1 game_start.p1 = 0 :=
  bounce_paddle_terminates ball_at_paddle_centre game_start.p1 (by decide!) (by decide!)
    (Or.inl (by decide!))

/-! ### Visibility and idempotence of the compositor -/

/-- C13, as stated, fails: pixel `(0, 0)` is on in the composited frame although
it is off in the layers of paddle 2, of the ball and of the score. -/
theorem draw_screen_shows_single_layer :
    pixel_on (draw_screen one_layer_lit).screen 0 0 ∧
      pixel_on one_layer_lit.p1.data 0 0 ∧ ¬ pixel_on one_layer_lit.p2.data 0 0 ∧
      ¬ pixel_on one_layer_lit.b.data 0 0 ∧ ¬ pixel_on one_layer_lit.score 0 0 := by
  decide!

/-- C13, amended: after `draw_screen` a pixel of the grid is on in `screen`
exactly when it is on in at least one of the four layers. -/
theorem draw_screen_visible_iff (s : state) (px py : Nat) (hpx : px < 128) (hpy : py < 32) :
    pixel_on (draw_screen s).screen px py ↔
      (pixel_on s.p1.data px py ∨ pixel_on s.p2.data px py ∨ pixel_on s.b.data px py ∨
        pixel_on s.score px py) := by
  unfold pixel_on
  simp only [draw_screen]
  rw [draw_screen_loop_apply, if_pos (by omega)]
  simp only [Nat.testBit_and, Bool.and_eq_false_iff, or_assoc]

/-- Pixel `(5, 15)` of `game_start` meets the hypotheses of the visibility rule. -/
theorem draw_screen_visible_iff_witness :
    pixel_on (draw_screen game_start).screen 5 15 ↔
      (pixel_on game_start.p1.data 5 15 ∨ pixel_on game_start.p2.data 5 15 ∨
        pixel_on game_start.b.data 5 15 ∨ pixel_on game_start.score 5 15) :=
  draw_screen_visible_iff game_start 5 15 (by decide) (by decide)

/-- C17: a second `draw_screen` with unchanged layers leaves every byte of
`screen` as the first call wrote it. -/
theorem draw_screen_idempotent (s : state) (i : Nat) :
    (draw_screen (draw_screen s)).screen i = (draw_screen s).screen i := by
  simp only [draw_screen]
  rw [draw_screen_loop_apply, draw_screen_loop_apply]
  simp only
  split <;> rfl

/-! ### Edge contact, reflexivity and asymmetry of the overlap test -/

/-- C14, as stated, fails: a ball whose right edge touches the left edge of the
paddle is not a collision, and neither is a ball that touches the right edge
of the paddle when none of its rows lies in the paddle's extent, although the
vertical ranges overlap in both cases. -/
theorem in_object_misses_edge_touch :
    (0 < ball_left_of_paddle.width ∧ 0 < ball_left_of_paddle.height ∧
      0 < game_start.p1.width ∧ 0 < game_start.p1.height ∧
      ball_left_of_paddle.x + (ball_left_of_paddle.width : ℚ) = game_start.p1.x ∧
      ball_left_of_paddle.y < game_start.p1.y + (game_start.p1.height : ℚ) ∧
      game_start.p1.y < ball_left_of_paddle.y + (ball_left_of_paddle.height : ℚ) ∧
      in_object ball_left_of_paddle game_start.p1 = 0) ∧
    (0 < ball_beside_paddle_top.width ∧ 0 < ball_beside_paddle_top.height ∧
      ball_beside_paddle_top.x = game_start.p1.x + (game_start.p1.width : ℚ) ∧
      ball_beside_paddle_top.y < game_start.p1.y + (game_start.p1.height : ℚ) ∧
      game_start.p1.y < ball_beside_paddle_top.y + (ball_beside_paddle_top.height : ℚ) ∧
      in_object ball_beside_paddle_top game_start.p1 = 0) := by
  decide!

theorem in_object_eq_one_of_cell (o1 o2 : object) (i j : Int) (hi0 : 0 ≤ i) (hi1 : i < o1.width)
    (hj0 : 0 ≤ j) (hj1 : j < o1.height)
    (h1 : o2.x ≤ o1.x + (i : ℚ)) (h2 : o1.x + (i : ℚ) ≤ o2.x + (o2.width : ℚ))
    (h3 : o2.y ≤ o1.y + (j : ℚ)) (h4 : o1.y + (j : ℚ) ≤ o2.y + (o2.height : ℚ)) :
    in_object o1 o2 = 1 := by
  rw [(in_object_cell_test o1 o2).1]
  exact ⟨i, j, hi0, hi1, hj0, hj1, h1, h2, h3, h4⟩

/-- C14, amended: for objects of positive width and height, `in_object (o1, o2)`
returns 1 when the left edge of `o1` lies on the right edge of `o2` and some
row of `o1` is within the inclusive vertical extent of `o2`, and when the top
edge of `o1` lies on the bottom edge of `o2` and some column of `o1` is within
the inclusive horizontal extent of `o2`; it returns 0 when the right edge of
`o1` lies on the left edge of `o2` or the bottom edge of `o1` on the top edge
of `o2`. -/
theorem in_object_edge_touch (o1 o2 : object) (hw1 : 0 < o1.width) (hh1 : 0 < o1.height)
    (hw2 : 0 < o2.width) (hh2 : 0 < o2.height) :
    (o1.x = o2.x + (o2.width : ℚ) →
      (∃ j : Int, 0 ≤ j ∧ j < o1.height ∧ o2.y ≤ o1.y + (j : ℚ) ∧
        o1.y + (j : ℚ) ≤ o2.y + (o2.height : ℚ)) → in_object o1 o2 = 1) ∧
    (o1.y = o2.y + (o2.height : ℚ) →
      (∃ i : Int, 0 ≤ i ∧ i < o1.width ∧ o2.x ≤ o1.x + (i : ℚ) ∧
        o1.x + (i : ℚ) ≤ o2.x + (o2.width : ℚ)) → in_object o1 o2 = 1) ∧
    (o1.x + (o1.width : ℚ) = o2.x → in_object o1 o2 = 0) ∧
    (o1.y + (o1.height : ℚ) = o2.y → in_object o1 o2 = 0) := by
  have hw2q : (0 : ℚ) < (o2.width : ℚ) := by exact_mod_cast hw2
  have hh2q : (0 : ℚ) < (o2.height : ℚ) := by exact_mod_cast hh2
  refine ⟨?_, ?_, ?_, ?_⟩
  · rintro hx ⟨j, hj0, hj1, h3, h4⟩
    apply in_object_eq_one_of_cell o1 o2 0 j (le_refl 0) hw1 hj0 hj1 _ _ h3 h4
    · rw [hx]; push_cast; linarith
    · rw [hx]; push_cast; linarith
  · rintro hy ⟨i, hi0, hi1, h1, h2⟩
    apply in_object_eq_one_of_cell o1 o2 i 0 hi0 hi1 (le_refl 0) hh1 h1 h2
    · rw [hy]; push_cast; linarith
    · rw [hy]; push_cast; linarith
  · intro hx
    apply in_object_eq_zero_of_right
    intro i _ hi
    have : (i : ℚ) + 1 ≤ (o1.width : ℚ) := by
      have : i + 1 ≤ o1.width := by omega
      exact_mod_cast this
    linarith
  · intro hy
    apply in_object_eq_zero_of_above
    intro j _ hj
    have : (j : ℚ) + 1 ≤ (o1.height : ℚ) := by
      have : j + 1 ≤ o1.height := by omega
      exact_mod_cast this
    linarith

/-- The ball `ball_at_paddle_centre` lies with its left edge on the right edge of
paddle 1 of `game_start`. -/
theorem in_object_edge_touch_witness :
    (ball_at_paddle_centre.x = game_start.p1.x + (game_start.p1.width : ℚ) →
      (∃ j : Int, 0 ≤ j ∧ j < ball_at_paddle_centre.height ∧
        game_start.p1.y ≤ ball_at_paddle_centre.y + (j : ℚ) ∧
        ball_at_paddle_centre.y + (j : ℚ) ≤ game_start.p1.y + (game_start.p1.height : ℚ)) →
      in_object ball_at_paddle_centre game_start.p1 = 1) ∧
    (ball_at_paddle_centre.y = game_start.p1.y + (game_start.p1.height : ℚ) →
      (∃ i : Int, 0 ≤ i ∧ i < ball_at_paddle_centre.width ∧
        game_start.p1.x ≤ ball_at_paddle_centre.x + (i : ℚ) ∧
        ball_at_paddle_centre.x + (i : ℚ) ≤ game_start.p1.x + (game_start.p1.width : ℚ)) →
      in_object ball_at_paddle_centre game_start.p1 = 1) ∧
    (ball_at_paddle_centre.x + (ball_at_paddle_centre.width : ℚ) = game_start.p1.x →
      in_object ball_at_paddle_centre game_start.p1 = 0) ∧
    (ball_at_paddle_centre.y + (ball_at_paddle_centre.height : ℚ) = game_start.p1.y →
      in_object ball_at_paddle_centre game_start.p1 = 0) :=
  in_object_edge_touch ball_at_paddle_centre game_start.p1 (by decide) (by decide) (by decide)
    (by decide)

/-- C15: an object of width and height at least 1 overlaps itself. -/
theorem in_object_reflexive (A : object) (hw : 1 ≤ A.width) (hh : 1 ≤ A.height) :
    in_object A A = 1 := by
  have hwq : (0 : ℚ) ≤ (A.width : ℚ) := by
    have : (0 : Int) ≤ A.width := by omega
    exact_mod_cast this
  have hhq : (0 : ℚ) ≤ (A.height : ℚ) := by
    have : (0 : Int) ≤ A.height := by omega
    exact_mod_cast this
  apply in_object_eq_one_of_cell A A 0 0 (le_refl 0) (by omega) (le_refl 0) (by omega) <;>
    push_cast <;> linarith

/-- The ball of `game_start` is 2x2. -/
theorem in_object_reflexive_witness : in_object game_start.b game_start.b = 1 :=
  in_object_reflexive game_start.b (by decide) (by decide)

/-- C16: the ball left of paddle 1, touching it, is not in the paddle, while the
paddle is in the ball: `in_object` depends on the order of its arguments. -/
theorem in_object_not_symmetric :
    ∃ A B : object, 0 < A.width ∧ 0 < A.height ∧ 0 < B.width ∧ 0 < B.height ∧
      in_object A B ≠ in_object B A :=
  ⟨ball_left_of_paddle, game_start.p1, by decide!⟩

/-! ### The edge boost of the bounce -/

theorem bounce_velocity_upper_no_boost (b p : object)
    (hup : b.y + (b.height : ℚ) > p.y ∧
      b.y + ((Int.tdiv b.height 2 : Int) : ℚ) < p.y + (p.height : ℚ) / 2)
    (hno : ¬ (b.y + (b.height : ℚ) ≥ p.y ∧ b.y + (b.height : ℚ) < p.y + 2 / 10)) :
    (bounce_velocity b p).v_y = -(|b.v_y| + bounce_mod b p) := by
  have hm := bounce_mod_nonneg b p
  unfold bounce_velocity
  simp only []
  rw [if_pos hup, if_neg hno]
  by_cases hv : b.v_y < 0
  · rw [if_pos hv, abs_of_neg hv, if_neg (by linarith)]
    ring
  · have hv0 : 0 ≤ b.v_y := not_lt.mp hv
    rw [if_neg hv, abs_of_nonneg hv0]
    by_cases hz : b.v_y + bounce_mod b p > 0
    · rw [if_pos hz]; ring
    · rw [if_neg hz]
      have : b.v_y + bounce_mod b p = 0 := by linarith
      rw [this]; ring

/-- C19: when `in_object (b, p)` returns 1 (which needs a ball of height at
least 1), as at every call of `bounce_paddle` from `move_ball`, the bottom of the ball is at least one row below the top of
the paddle, so the tolerance test of the upper-part branch is false and that
branch leaves `v_y = -(|v_y| + mod)` without the factor 1.02; the tolerance
test of the lower-part branch can hold together with `in_object = 1`, and then
the factor is applied. -/
theorem top_edge_boost_unreachable (b p : object) (hin : in_object b p = 1) :
    b.y + (b.height : ℚ) ≥ p.y + 1 ∧
      ¬ (b.y + (b.height : ℚ) ≥ p.y ∧ b.y + (b.height : ℚ) < p.y + 2 / 10) ∧
      (b.y + (b.height : ℚ) > p.y ∧
          b.y + ((Int.tdiv b.height 2 : Int) : ℚ) < p.y + (p.height : ℚ) / 2 →
        (bounce_velocity b p).v_y = -(|b.v_y| + bounce_mod b p)) ∧
      ∃ b2 p2 : object, in_object b2 p2 = 1 ∧
        b2.y ≤ p2.y + (p2.height : ℚ) ∧ b2.y > p2.y + (p2.height : ℚ) - 2 / 10 ∧
        b2.y < p2.y + (p2.height : ℚ) ∧
        (bounce_velocity b2 p2).v_y = 102 / 100 * (|b2.v_y| + bounce_mod b2 p2) := by
  have hge : b.y + (b.height : ℚ) ≥ p.y + 1 := by
    obtain ⟨i, j, _, _, _, hj1, _, _, h3, _⟩ := (in_object_cell_test b p).1.mp hin
    have : (j : ℚ) + 1 ≤ (b.height : ℚ) := by
      have : j + 1 ≤ b.height := by omega
      exact_mod_cast this
    linarith
  have hno : ¬ (b.y + (b.height : ℚ) ≥ p.y ∧ b.y + (b.height : ℚ) < p.y + 2 / 10) := by
    rintro ⟨_, h2⟩
    linarith
  exact ⟨hge, hno, fun hup => bounce_velocity_upper_no_boost b p hup hno,
    ball_low_on_paddle, game_start.p1, by decide!⟩

/-- The ball `ball_low_on_paddle` overlaps paddle 1 of `game_start`. -/
theorem top_edge_boost_unreachable_witness :
    ball_low_on_paddle.y + (ball_low_on_paddle.height : ℚ) ≥ game_start.p1.y + 1 ∧
      ¬ (ball_low_on_paddle.y + (ball_low_on_paddle.height : ℚ) ≥ game_start.p1.y ∧
        ball_low_on_paddle.y + (ball_low_on_paddle.height : ℚ) < game_start.p1.y + 2 / 10) ∧
      (ball_low_on_paddle.y + (ball_low_on_paddle.height : ℚ) > game_start.p1.y ∧
          ball_low_on_paddle.y + ((Int.tdiv ball_low_on_paddle.height 2 : Int) : ℚ)
            < game_start.p1.y + (game_start.p1.height : ℚ) / 2 →
        (bounce_velocity ball_low_on_paddle game_start.p1).v_y
          = -(|ball_low_on_paddle.v_y| + bounce_mod ball_low_on_paddle game_start.p1)) ∧
      ∃ b2 p2 : object, in_object b2 p2 = 1 ∧
        b2.y ≤ p2.y + (p2.height : ℚ) ∧ b2.y > p2.y + (p2.height : ℚ) - 2 / 10 ∧
        b2.y < p2.y + (p2.height : ℚ) ∧
        (bounce_velocity b2 p2).v_y = 102 / 100 * (|b2.v_y| + bounce_mod b2 p2) :=
  top_edge_boost_unreachable ball_low_on_paddle game_start.p1 (by decide!)

/-! ### The high-score sort -/

theorem max_loop_spec (h : Nat → high_score) (i : Nat) : ∀ rem j max,
    i ≤ j → i ≤ max → max < j + rem →
    (∀ k, i ≤ k → k < j → (h k).score ≤ (h max).score) →
    i ≤ max_loop h rem j max ∧ max_loop h rem j max < j + rem ∧
      ∀ k, i ≤ k → k < j + rem → (h k).score ≤ (h (max_loop h rem j max)).score := by
  intro rem
  induction rem with
  | zero =>
    intro j max _ h2 h3 h4
    exact ⟨h2, h3, fun k hk1 hk2 => h4 k hk1 (by omega)⟩
  | succ n ih =>
    intro j max h1 h2 h3 h4
    simp only [max_loop]
    have key := ih (j + 1) (if (h j).score > (h max).score then j else max) (by omega)
      (by split <;> omega) (by split <;> omega)
      (by
        intro k hk1 hk2
        by_cases hkj : k = j
        · subst hkj
          split
          · exact le_refl _
          · rename_i hc
            exact not_lt.mp hc
        · have := h4 k hk1 (by omega)
          split
          · rename_i hc
            exact le_trans this (le_of_lt hc)
          · exact this)
    obtain ⟨k1, k2, k3⟩ := key
    exact ⟨k1, by omega, fun k hk1 hk2 => k3 k hk1 (by omega)⟩

theorem sort_step_spec (h : Nat → high_score) (i : Nat) (hi : i < NUM_HIGH_SCRS) :
    ∃ m, i ≤ m ∧ m < NUM_HIGH_SCRS ∧ (∀ k, sort_step h i k = h (Equiv.swap i m k)) ∧
      leads (sort_step h i) i := by
  obtain ⟨m1, m2, m3⟩ := max_loop_spec h i (NUM_HIGH_SCRS - i) i i (le_refl i) (le_refl i)
    (by omega) (fun k hk1 hk2 => absurd hk2 (by omega))
  have hm2 : max_loop h (NUM_HIGH_SCRS - i) i i < NUM_HIGH_SCRS := by omega
  have hswap : ∀ k, sort_step h i k = h (Equiv.swap i (max_loop h (NUM_HIGH_SCRS - i) i i) k) := by
    intro k
    unfold sort_step
    split
    · rename_i hne
      by_cases hk1 : k = max_loop h (NUM_HIGH_SCRS - i) i i
      · rw [hk1, Function.update_same, Equiv.swap_apply_right]
      · rw [Function.update_noteq hk1]
        by_cases hk2 : k = i
        · rw [hk2, Function.update_same, Equiv.swap_apply_left]
        · rw [Function.update_noteq hk2, Equiv.swap_apply_of_ne_of_ne hk2 hk1]
    · rename_i heq
      rw [not_not.mp heq, Equiv.swap_self]
      rfl
  refine ⟨_, m1, hm2, hswap, ?_⟩
  intro k hk1 hk2
  rw [hswap k, hswap i, Equiv.swap_apply_left]
  apply m3
  · by_cases hk3 : k = i
    · rw [hk3, Equiv.swap_apply_left]; exact m1
    · by_cases hk4 : k = max_loop h (NUM_HIGH_SCRS - i) i i
      · rw [hk4, Equiv.swap_apply_right]
      · rw [Equiv.swap_apply_of_ne_of_ne hk3 hk4]; exact hk1
  · by_cases hk3 : k = i
    · rw [hk3, Equiv.swap_apply_left]; omega
    · by_cases hk4 : k = max_loop h (NUM_HIGH_SCRS - i) i i
      · rw [hk4, Equiv.swap_apply_right]; omega
      · rw [Equiv.swap_apply_of_ne_of_ne hk3 hk4]; omega

theorem leads_of_swap (h g : Nat → high_score) (a i m : Nat) (hai : a < i) (him : i ≤ m)
    (hm : m < NUM_HIGH_SCRS) (hg : ∀ k, g k = h (Equiv.swap i m k)) (hl : leads h a) :
    leads g a := by
  intro k hk1 hk2
  have ha : g a = h a := by
    rw [hg a, Equiv.swap_apply_of_ne_of_ne (by omega) (by omega)]
  rw [ha, hg k]
  by_cases hk3 : k = i
  · rw [hk3, Equiv.swap_apply_left]; exact hl m (by omega) hm
  · by_cases hk4 : k = m
    · rw [hk4, Equiv.swap_apply_right]; exact hl i (by omega) (by omega)
    · rw [Equiv.swap_apply_of_ne_of_ne hk3 hk4]; exact hl k hk1 hk2

/-- C18: `sort_high_score` rearranges the 50 entries of the table (each entry
moves as a whole), after which the scores at indices 0, 1, 2 are in descending
order and no entry at an index from 3 to 49 has a score above the one at
index 2. -/
theorem sort_high_score_top_three (h : Nat → high_score) :
    (∃ σ : Equiv.Perm Nat, (∀ k, NUM_HIGH_SCRS ≤ k → σ k = k) ∧
      ∀ k, sort_high_score h k = h (σ k)) ∧
    (sort_high_score h 0).score ≥ (sort_high_score h 1).score ∧
    (sort_high_score h 1).score ≥ (sort_high_score h 2).score ∧
    ∀ k, 3 ≤ k → k < NUM_HIGH_SCRS → (sort_high_score h k).score ≤ (sort_high_score h 2).score := by
  obtain ⟨m0, a0, b0, s0, l0⟩ := sort_step_spec h 0 (by decide)
  obtain ⟨m1, a1, b1, s1, l1⟩ := sort_step_spec (sort_step h 0) 1 (by decide)
  obtain ⟨m2, a2, b2, s2, l2⟩ := sort_step_spec (sort_step (sort_step h 0) 1) 2 (by decide)
  have e : sort_high_score h = sort_step (sort_step (sort_step h 0) 1) 2 := rfl
  have l01 : leads (sort_step (sort_step h 0) 1) 0 :=
    leads_of_swap _ _ 0 1 m1 (by omega) a1 b1 s1 l0
  have l02 : leads (sort_step (sort_step (sort_step h 0) 1) 2) 0 :=
    leads_of_swap _ _ 0 2 m2 (by omega) a2 b2 s2 l01
  have l12 : leads (sort_step (sort_step (sort_step h 0) 1) 2) 1 :=
    leads_of_swap _ _ 1 2 m2 (by omega) a2 b2 s2 l1
  rw [e]
  refine ⟨⟨((Equiv.swap 2 m2).trans (Equiv.swap 1 m1)).trans (Equiv.swap 0 m0), ?_, ?_⟩,
    l02 1 (by omega) (by decide), l12 2 (by omega) (by decide),
    fun k hk1 hk2 => l2 k (by omega) hk2⟩
  · intro k hk
    simp only [NUM_HIGH_SCRS] at hk b0 b1 b2
    simp only [Equiv.trans_apply]
    have e2 : Equiv.swap 2 m2 k = k := Equiv.swap_apply_of_ne_of_ne (by omega) (by omega)
    have e1 : Equiv.swap 1 m1 k = k := Equiv.swap_apply_of_ne_of_ne (by omega) (by omega)
    have e0 : Equiv.swap 0 m0 k = k := Equiv.swap_apply_of_ne_of_ne (by omega) (by omega)
    rw [e2, e1, e0]
  · intro k
    rw [s2 k, s1, s0]
    rfl

end Pong
